import Mathlib

/-!
Shallow embedding of the ShootyUppy arcade game (src/main.py) in Lean 4.

Conventions of the embedding:
* Python floats are modelled by exact rationals (ℚ).
* pygame rectangles are modelled by a record of left/top/width/height in ℚ
  (pygame stores ints; the real-valued semantics is used uniformly, which is
  faithful for every property treated here).
* Object identity of sprites (used by the Python code via the operators
  `is` / `in` on sprite groups) is modelled by a numeric id field; all
  collections carry enemies with pairwise distinct ids.
* Randomness (enemy fire gating, shape choice, bouncy-ball direction,
  powerup sampling) is supplied by explicit oracle arguments.
* Euclidean-distance comparisons are modelled by squared-distance
  comparisons, which induce the same order on nonnegative distances.
-/

unseal Rat.mul Rat.inv Rat.add Rat.sub Rat.ofScientific

namespace ShootyUppy

/-- Axis-aligned rectangle: left, top, width, height (pygame.Rect). -/
structure Rect where
  x : ℚ
  y : ℚ
  w : ℚ
  h : ℚ
deriving DecidableEq

namespace Rect

def left (r : Rect) : ℚ := r.x

def right (r : Rect) : ℚ := r.x + r.w

def top (r : Rect) : ℚ := r.y

def bottom (r : Rect) : ℚ := r.y + r.h

def centerx (r : Rect) : ℚ := r.x + r.w / 2

def centery (r : Rect) : ℚ := r.y + r.h / 2

/-- pygame Rect.colliderect: true overlap of half-open boxes. -/
def colliderect (a b : Rect) : Bool :=
  decide (a.x < b.x + b.w) && decide (a.x + a.w > b.x) &&
  decide (a.y < b.y + b.h) && decide (a.y + a.h > b.y)

/-- Clamp a 1-dimensional extent [x, x+w) into [lo, hi); pygame centers the
rectangle when it does not fit. -/
def clamp1 (x w lo hi : ℚ) : ℚ :=
  if hi - lo < w then lo + (hi - lo - w) / 2
  else min (max x lo) (hi - w)

/-- pygame Rect.clamp_ip against the screen rectangle (0,0,W,H). -/
def clampScreen (r : Rect) (W H : ℚ) : Rect :=
  { r with x := clamp1 r.x r.w 0 W, y := clamp1 r.y r.h 0 H }

/-- Build a rect of a given size centered at a point (get_rect(center=pos)). -/
def mkCenter (cx cy w h : ℚ) : Rect :=
  { x := cx - w / 2, y := cy - h / 2, w := w, h := h }

end Rect

/-- Configuration bundle: DEFAULT_CONFIG of src/main.py, flattened. -/
structure Config where
  width : ℚ
  height : ℚ
  player_speed : ℚ
  player_shoot_cooldown : ℚ
  player_bullet_speed : ℚ
  player_bullet_damage : ℚ
  player_bullet_count : ℕ
  player_max_health : ℚ
  player_bottom_margin : ℚ
  rows : ℕ
  cols : ℕ
  horizontal_speed : ℚ
  enemy_shoot_cooldown : ℚ
  enemy_bullet_speed : ℚ
  enemy_bullet_damage : ℚ
  spacing : ℚ
  start_y : ℚ
  padding : ℚ
  base_health : ℚ
  speed_scaling : ℚ
  health_scaling : ℚ
  count_scaling : ℚ
deriving DecidableEq

/-- The DEFAULT_CONFIG values of src/main.py. -/
def defaultConfig : Config where
  width := 960
  height := 720
  player_speed := 360
  player_shoot_cooldown := 0.25
  player_bullet_speed := 900
  player_bullet_damage := 1
  player_bullet_count := 1
  player_max_health := 5
  player_bottom_margin := 32
  rows := 3
  cols := 6
  horizontal_speed := 120
  enemy_shoot_cooldown := 1.5
  enemy_bullet_speed := 360
  enemy_bullet_damage := 1
  spacing := 96
  start_y := 90
  padding := 60
  base_health := 2
  speed_scaling := 0.12
  health_scaling := 0.6
  count_scaling := 0.12

/-- A projectile (class Bullet): 6x18 rect, velocity, damage, optional
owner id (the enemy that fired it, for thorns retaliation). -/
structure Bullet where
  rect : Rect
  vx : ℚ
  vy : ℚ
  damage : ℚ
  owner : Option ℕ
deriving DecidableEq

/-- Bullet.__init__: rect of size 6x18 centered at pos. -/
def mkBullet (px py vx vy damage : ℚ) (owner : Option ℕ) : Bullet :=
  { rect := Rect.mkCenter px py 6 18, vx := vx, vy := vy, damage := damage, owner := owner }

/-- Bullet.update: move by velocity * dt. -/
def bulletUpdate (dt : ℚ) (b : Bullet) : Bullet :=
  { b with rect := { b.rect with x := b.rect.x + b.vx * dt, y := b.rect.y + b.vy * dt } }

/-- class BouncyBall: 36x36 rect, velocity, damage, lifetime countdown and
collision budget. -/
structure Ball where
  rect : Rect
  vx : ℚ
  vy : ℚ
  damage : ℚ
  lifetime : ℚ
  remaining_collisions : ℤ
deriving DecidableEq

def BOUNCY_BALL_SIZE : ℚ := 36

def BOUNCY_BALL_LIFETIME : ℚ := 6

def BOUNCY_BALL_COLLISIONS : ℤ := 10

/-- BouncyBall.__init__. -/
def mkBall (px py vx vy damage : ℚ) : Ball :=
  { rect := Rect.mkCenter px py BOUNCY_BALL_SIZE BOUNCY_BALL_SIZE
    vx := vx, vy := vy, damage := damage
    lifetime := BOUNCY_BALL_LIFETIME
    remaining_collisions := BOUNCY_BALL_COLLISIONS }

/-- BouncyBall.update: tick lifetime (kill at <= 0), move, reflect on the
screen edges clamping back inside. -/
def ballUpdate (W H dt : ℚ) (b : Ball) : Option Ball :=
  let lt := b.lifetime - dt
  if lt ≤ 0 then none
  else
    let r1 : Rect := { b.rect with x := b.rect.x + b.vx * dt, y := b.rect.y + b.vy * dt }
    let hitX := r1.left ≤ 0 ∨ r1.right ≥ W
    let vx2 := if hitX then -b.vx else b.vx
    let r2 := if hitX then r1.clampScreen W H else r1
    let hitY := r2.top ≤ 0 ∨ r2.bottom ≥ H
    let vy2 := if hitY then -b.vy else b.vy
    let r3 := if hitY then r2.clampScreen W H else r2
    some { b with rect := r3, vx := vx2, vy := vy2, lifetime := lt }

/-- BouncyBall.on_collision: spend one collision; killed at budget 0. -/
def ballOnCollision (b : Ball) : Option Ball :=
  let rc := b.remaining_collisions - 1
  if rc ≤ 0 then none else some { b with remaining_collisions := rc }

/-- class Player. -/
structure Player where
  rect : Rect
  speed : ℚ
  shoot_cooldown : ℚ
  last_shot_time : ℚ
  bullet_speed : ℚ
  bullet_damage : ℚ
  bullet_count : ℕ
  max_health : ℚ
  health : ℚ
  has_split_shot : Bool
  has_thorns : Bool
  has_chain_lightning : Bool
  has_bouncy_ball : Bool
deriving DecidableEq

/-- Player.__init__: 60x28 rect with midbottom at (W/2, H - bottom_margin). -/
def mkPlayer (cfg : Config) : Player :=
  { rect := { x := cfg.width / 2 - 30, y := cfg.height - cfg.player_bottom_margin - 28, w := 60, h := 28 }
    speed := cfg.player_speed
    shoot_cooldown := cfg.player_shoot_cooldown
    last_shot_time := 0
    bullet_speed := cfg.player_bullet_speed
    bullet_damage := cfg.player_bullet_damage
    bullet_count := cfg.player_bullet_count
    max_health := cfg.player_max_health
    health := cfg.player_max_health
    has_split_shot := false
    has_thorns := false
    has_chain_lightning := false
    has_bouncy_ball := false }

/-- Player.move: shift horizontally, then clamp into the screen. -/
def playerMove (W H direction dt : ℚ) (p : Player) : Player :=
  { p with rect := (Rect.clampScreen { p.rect with x := p.rect.x + direction * p.speed * dt } W H) }

/-- Player.shoot: when off cooldown, emit bullet_count bullets spread 16
apart around top-center, plus two diagonal bullets with split shot. -/
def playerShoot (now : ℚ) (p : Player) : List Bullet × Player :=
  if now - p.last_shot_time < p.shoot_cooldown then ([], p)
  else
    let spread : ℚ := 16
    let offsets := (List.range p.bullet_count).map
      (fun i => ((i : ℚ) - ((p.bullet_count : ℚ) - 1) / 2) * spread)
    let straight := offsets.map
      (fun o => mkBullet (p.rect.centerx + o) p.rect.top 0 (-p.bullet_speed) p.bullet_damage none)
    let diag :=
      if p.has_split_shot then
        let ds := p.bullet_speed * 0.75
        [mkBullet p.rect.centerx p.rect.top (-ds) (-p.bullet_speed) p.bullet_damage none,
         mkBullet p.rect.centerx p.rect.top ds (-p.bullet_speed) p.bullet_damage none]
      else []
    (straight ++ diag, { p with last_shot_time := now })

/-- Player.upgrade_damage. -/
def upgradeDamage (p : Player) : Player :=
  { p with bullet_damage := p.bullet_damage + 1 }

/-- Player.upgrade_attack_speed: cooldown *= 0.85, floored at 0.05. -/
def upgradeAttackSpeed (p : Player) : Player :=
  { p with shoot_cooldown := max 0.05 (p.shoot_cooldown * 0.85) }

/-- Player.upgrade_bullet_count: +amount, capped at cap. -/
def upgrade_bullet_count (p : Player) (amount : ℕ) (cap : ℕ) : Player :=
  { p with bullet_count := min cap (p.bullet_count + amount) }

/-- Player.upgrade_speed. -/
def upgradeSpeed (p : Player) : Player :=
  { p with speed := p.speed + 40 }

/-- Player.heal_percentage: heal pct of max health, capped at max health. -/
def heal_percentage (p : Player) (pct : ℚ) : Player :=
  { p with health := min p.max_health (p.health + p.max_health * pct) }

/-- class Enemy; shape is a cosmetic tag (index into ENEMY_SHAPES). -/
structure Enemy where
  id : ℕ
  rect : Rect
  direction : ℚ
  speed : ℚ
  health : ℚ
  shoot_cooldown : ℚ
  last_shot_time : ℚ
  bullet_speed : ℚ
  bullet_damage : ℚ
  shape : ℕ
deriving DecidableEq

/-- Center of an enemy rect as a point. -/
def Enemy.center (e : Enemy) : ℚ × ℚ := (e.rect.centerx, e.rect.centery)

/-- Enemy.__init__: 50x30 rect centered at pos; speed and health scaled by
the wave multipliers; health floored at 1; cooldown scaled inversely with
the speed multiplier. -/
def mkEnemy (id : ℕ) (px py : ℚ) (cfg : Config) (speedMul healthMul : ℚ) (shape : ℕ) : Enemy :=
  { id := id
    rect := Rect.mkCenter px py 50 30
    direction := 1
    speed := cfg.horizontal_speed * speedMul
    health := max 1 (cfg.base_health * healthMul)
    shoot_cooldown := cfg.enemy_shoot_cooldown / (0.8 + speedMul * 0.2)
    last_shot_time := 0
    bullet_speed := cfg.enemy_bullet_speed
    bullet_damage := cfg.enemy_bullet_damage
    shape := shape }

/-- Enemy.update: lateral patrol; direction flips within 20 units of either
screen edge. -/
def enemyUpdate (W dt : ℚ) (e : Enemy) : Enemy :=
  let r : Rect := { e.rect with x := e.rect.x + e.direction * e.speed * dt }
  let dir := if r.left ≤ 0 + 20 ∨ r.right ≥ W - 20 then -e.direction else e.direction
  { e with rect := r, direction := dir }

/-- Enemy.try_shoot: no shot while on cooldown; once eligible, a Bernoulli
gate (random.random() < 0.25, supplied as the oracle bit) decides whether a
bullet is produced; last_shot_time is updated only on an actual shot. -/
def tryShoot (e : Enemy) (now : ℚ) (gate : Bool) : Option Bullet × Enemy :=
  if now - e.last_shot_time < e.shoot_cooldown then (none, e)
  else if gate then
    (some (mkBullet e.rect.centerx e.rect.bottom 0 e.bullet_speed e.bullet_damage (some e.id)),
     { e with last_shot_time := now })
  else (none, e)

/-- The upgrade catalog entries of build_powerups, as a tagged enumeration
(the Python closures become cases of applyPowerup). -/
inductive PowerupKind where
  | damage
  | attackSpeed
  | bulletCount
  | moveSpeed
  | heal
  | splitShot
  | thorns
  | chainLightning
  | bouncyBall
deriving DecidableEq

/-- build_powerups: the fixed ordered catalog. -/
def powerups : List PowerupKind :=
  [.damage, .attackSpeed, .bulletCount, .moveSpeed, .heal,
   .splitShot, .thorns, .chainLightning, .bouncyBall]

/-- The mutation each catalog entry applies to the player. -/
def applyPowerup (k : PowerupKind) (p : Player) : Player :=
  match k with
  | .damage => upgradeDamage p
  | .attackSpeed => upgradeAttackSpeed p
  | .bulletCount => upgrade_bullet_count p 1 6
  | .moveSpeed => upgradeSpeed p
  | .heal => heal_percentage p 0.4
  | .splitShot => { p with has_split_shot := true }
  | .thorns => { p with has_thorns := true }
  | .chainLightning => { p with has_chain_lightning := true }
  | .bouncyBall => { p with has_bouncy_ball := true }

/-- One draw without replacement: pick the element at index r mod length. -/
def pickOne {α : Type} (l : List α) (r : ℕ) : Option α :=
  l.get? (r % l.length)

/-- Models random.sample(l, 3): three successive draws without replacement,
each draw position supplied by an oracle number. -/
def sample3 {α : Type} [DecidableEq α] (l : List α) (r1 r2 r3 : ℕ) : List α :=
  match pickOne l r1 with
  | none => []
  | some a =>
    let l2 := l.erase a
    match pickOne l2 r2 with
    | none => [a]
    | some b =>
      let l3 := l2.erase b
      match pickOne l3 r3 with
      | none => [a, b]
      | some c => [a, b, c]

/-- Integer truncation toward zero, as Python int() on a float. -/
def truncQ (q : ℚ) : ℤ := if 0 ≤ q then ⌊q⌋ else ⌈q⌉

/-- Additional enemy count of create_wave:
math.ceil(base_total * count_scaling * (wave - 1)). -/
def waveAdditional (cfg : Config) (wave : ℕ) : ℤ :=
  ⌈((cfg.rows * cfg.cols : ℕ) : ℚ) * cfg.count_scaling * ((wave : ℚ) - 1)⌉

/-- Total enemy count of create_wave (range() of a negative total is empty). -/
def waveTotal (cfg : Config) (wave : ℕ) : ℕ :=
  (((cfg.rows * cfg.cols : ℕ) : ℤ) + waveAdditional cfg wave).toNat

/-- Layout column count of create_wave:
max(1, int(min(cols + wave // 2, (width - 2 * padding) // spacing))). -/
def waveCols (cfg : Config) (wave : ℕ) : ℕ :=
  (max 1 (min ((cfg.cols : ℤ) + (wave / 2 : ℕ)) ⌊(cfg.width - cfg.padding * 2) / cfg.spacing⌋)).toNat

/-- create_wave: lay out waveTotal enemies row-major over waveCols columns,
x clamped into [padding, width - padding]; speed/health multipliers grow
linearly with the wave index; shapes are random (oracle) from wave 3 on.
Fresh ids start at startId. -/
def create_wave (cfg : Config) (wave : ℕ) (shapeFor : ℕ → ℕ) (startId : ℕ) : List Enemy :=
  let speedMul := 1 + ((wave : ℚ) - 1) * cfg.speed_scaling
  let healthMul := 1 + ((wave : ℚ) - 1) * cfg.health_scaling
  let cols := waveCols cfg wave
  (List.range (waveTotal cfg wave)).map (fun idx =>
    let col := idx % cols
    let row := idx / cols
    let x0 := cfg.padding + (col : ℚ) * cfg.spacing
    let x := min (max cfg.padding x0) (cfg.width - cfg.padding)
    let y := cfg.start_y + (row : ℚ) * cfg.spacing
    let shape := if wave ≥ 3 then shapeFor idx % 4 else 0
    mkEnemy (startId + idx) x y cfg speedMul healthMul shape)

/-- Squared Euclidean distance (order-isomorphic to the distance the code
compares via Vector2.distance_to). -/
def distSq (p q : ℚ × ℚ) : ℚ := (p.1 - q.1) ^ 2 + (p.2 - q.2) ^ 2

/-- The fold underlying Python min(list, key=f): the accumulator is
replaced only on a strictly smaller key, so the first minimum wins. -/
def pyMinFold {α : Type} (f : α → ℚ) (acc : α) (es : List α) : α :=
  es.foldl (fun best x => if f x < f best then x else best) acc

/-- Python min(list, key=f): the first element attaining the least key. -/
def minByKey {α : Type} (f : α → ℚ) : List α → Option α
  | [] => none
  | e :: es => some (pyMinFold f e es)

/-- t is the first element of l attaining the least key f (Python min
semantics: ties broken by first encounter). -/
def FirstMin {α : Type} (f : α → ℚ) (l : List α) (t : α) : Prop :=
  (∃ l1 l2, l = l1 ++ t :: l2 ∧ ∀ x ∈ l1, f t < f x) ∧ ∀ x ∈ l, f t ≤ f x

/-- t is the candidate of rem nearest to pos, first-encountered on ties
(squared distance orders exactly as Euclidean distance). -/
def FirstMinAt (pos : ℚ × ℚ) (rem : List Enemy) (t : Enemy) : Prop :=
  FirstMin (fun e => distSq e.center pos) rem t

/-- One chained segment from each successive position to the next struck
center. -/
def segsFrom (pos : ℚ × ℚ) : List (ℚ × ℚ) → List ((ℚ × ℚ) × (ℚ × ℚ))
  | [] => []
  | c :: cs => (pos, c) :: segsFrom c cs

/-- The struck-target list follows the nearest-remaining-candidate rule:
each struck enemy is the nearest remaining candidate to the current
position, is removed from the candidate list, and the position advances to
its center. -/
inductive NearestChainFrom : ℚ × ℚ → List Enemy → List Enemy → Prop where
  | nil (pos : ℚ × ℚ) (rem : List Enemy) : NearestChainFrom pos rem []
  | cons (pos : ℚ × ℚ) (rem : List Enemy) (t : Enemy) (rest : List Enemy) :
      FirstMinAt pos rem t →
      NearestChainFrom t.center (rem.filter (fun e => e.id ≠ t.id)) rest →
      NearestChainFrom pos rem (t :: rest)

/-- Effect of one chain strike on the live enemy collection: the struck
target (identified by id) is removed when its damaged health falls to 0 or
below (enemies.remove in the source); otherwise its health is updated in
place (the Python mutation of the shared object). -/
def chainUpdate (damage : ℚ) (t : Enemy) (enemies : List Enemy) : List Enemy :=
  if t.health - damage ≤ 0 then enemies.filter (fun e => e.id ≠ t.id)
  else enemies.map (fun e => if e.id = t.id then { e with health := t.health - damage } else e)

/-- Core recursion of chain_lightning_strike. Returns (struck targets in
order, segments, surviving enemy collection). Strikes up to n targets:
each step picks the remaining target nearest to the current position,
applies the damage, drops it from the candidate list, and removes it from
the enemy collection exactly when its health fell to 0 or below. -/
def chainStep (damage : ℚ) : ℕ → ℚ × ℚ → List Enemy → List Enemy →
    List Enemy × List ((ℚ × ℚ) × (ℚ × ℚ)) × List Enemy
  | 0, _, _, enemies => ([], [], enemies)
  | n + 1, pos, remaining, enemies =>
    match minByKey (fun e => distSq e.center pos) remaining with
    | none => ([], [], enemies)
    | some t =>
      (t :: (chainStep damage n t.center (remaining.filter (fun e => e.id ≠ t.id))
          (chainUpdate damage t enemies)).1,
       (pos, t.center) :: (chainStep damage n t.center (remaining.filter (fun e => e.id ≠ t.id))
          (chainUpdate damage t enemies)).2.1,
       (chainStep damage n t.center (remaining.filter (fun e => e.id ≠ t.id))
          (chainUpdate damage t enemies)).2.2)

/-- chain_lightning_strike with the struck-target trace exposed: candidates
are all enemies other than the seed; the cursor starts at the seed center. -/
def chainTrace (start : Enemy) (enemies : List Enemy) (damage : ℚ) (maxBounces : ℕ) :
    List Enemy × List ((ℚ × ℚ) × (ℚ × ℚ)) × List Enemy :=
  chainStep damage maxBounces start.center (enemies.filter (fun e => e.id ≠ start.id)) enemies

/-- chain_lightning_strike as in the source: segments plus the updated
enemy collection (the Python version mutates the group in place). -/
def chain_lightning_strike (start : Enemy) (enemies : List Enemy) (damage : ℚ) (maxBounces : ℕ) :
    List ((ℚ × ℚ) × (ℚ × ℚ)) × List Enemy :=
  let r := chainTrace start enemies damage maxBounces
  (r.2.1, r.2.2)

/-- ensure_bouncy_ball_active: spawn one ball only when the player has the
ability and no ball is active; velocity x sign from the oracle bit; the
new ball is clamped onto the screen. -/
def ensure_bouncy_ball_active (W H : ℚ) (p : Player) (balls : List Ball) (dirPos : Bool) :
    List Ball :=
  if p.has_bouncy_ball = false ∨ balls ≠ [] then balls
  else
    let sign : ℚ := if dirPos then 0.7 else -0.7
    let b := mkBall p.rect.centerx p.rect.top (p.bullet_speed * sign) (-p.bullet_speed * 0.6)
      (p.bullet_damage * 0.5)
    balls ++ [{ b with rect := b.rect.clampScreen W H }]

/-- The session state machine states. -/
inductive SState where
  | playing
  | choosing
  | gameOver
deriving DecidableEq

/-- The session: player, the three projectile collections, the enemy
collection, wave number, discrete state, pending wave / offered powerups
for the choosing state, visual lightning effects (segment lists), and the
next fresh enemy id. -/
structure GameState where
  player : Player
  enemies : List Enemy
  player_bullets : List Bullet
  enemy_bullets : List Bullet
  bouncy_balls : List Ball
  wave : ℕ
  state : SState
  pending_wave : Option ℕ
  powerup_choices : List PowerupKind
  effects : List (List ((ℚ × ℚ) × (ℚ × ℚ)))
  nextId : ℕ
deriving DecidableEq

/-- Per-frame oracle inputs: movement intent, time step, wall-clock time,
one fire-gate bit per enemy id, the bouncy-ball direction bit, the shape
oracle for newly created waves, and the powerup-sampling draws. -/
structure FrameIn where
  direction : ℚ
  dt : ℚ
  now : ℚ
  fireGate : ℕ → Bool
  ballDirPos : Bool
  shapeFor : ℕ → ℕ
  r1 : ℕ
  r2 : ℕ
  r3 : ℕ

/-- reset_game: fresh player, a wave-1 enemy set, empty projectile
collections, wave 1, state playing. -/
def reset_game (cfg : Config) (shapeFor : ℕ → ℕ) : GameState :=
  let enemies := create_wave cfg 1 shapeFor 0
  { player := mkPlayer cfg
    enemies := enemies
    player_bullets := []
    enemy_bullets := []
    bouncy_balls := []
    wave := 1
    state := .playing
    pending_wave := none
    powerup_choices := []
    effects := []
    nextId := enemies.length }

/-- Movement step of the playing frame: player.move(direction, dt). -/
def movePhase (cfg : Config) (i : FrameIn) (s : GameState) : GameState :=
  { s with player := playerMove cfg.width cfg.height i.direction i.dt s.player }

/-- ensure_bouncy_ball_active applied to the session. -/
def ensurePhase (cfg : Config) (i : FrameIn) (s : GameState) : GameState :=
  { s with bouncy_balls :=
      ensure_bouncy_ball_active cfg.width cfg.height s.player s.bouncy_balls i.ballDirPos }

/-- Sprite-group updates: bullets move, balls move/bounce/expire, enemies
patrol. -/
def updatePhase (cfg : Config) (i : FrameIn) (s : GameState) : GameState :=
  { s with
    player_bullets := s.player_bullets.map (bulletUpdate i.dt)
    enemy_bullets := s.enemy_bullets.map (bulletUpdate i.dt)
    bouncy_balls := s.bouncy_balls.filterMap (ballUpdate cfg.width cfg.height i.dt)
    enemies := s.enemies.map (enemyUpdate cfg.width i.dt) }

/-- Off-screen bullet cleanup: player bullets whose bottom is above the
screen top, enemy bullets whose top is below the screen bottom. -/
def cleanupPhase (cfg : Config) (s : GameState) : GameState :=
  { s with
    player_bullets := s.player_bullets.filter (fun b => ¬ b.rect.bottom < 0)
    enemy_bullets := s.enemy_bullets.filter (fun b => ¬ b.rect.top > cfg.height) }

/-- Enemy fire attempts: every enemy tries to shoot; produced bullets are
appended to the enemy-bullet collection. -/
def firePhase (i : FrameIn) (s : GameState) : GameState :=
  let results := s.enemies.map (fun e => tryShoot e i.now (i.fireGate e.id))
  { s with
    enemies := results.map Prod.snd
    enemy_bullets := s.enemy_bullets ++ results.filterMap Prod.fst }

/-- Accumulator of the player-bullet and bouncy-ball collision passes:
current enemy collection, lightning effects, and the bullets/balls kept. -/
structure HitAcc (β : Type) where
  enemies : List Enemy
  effects : List (List ((ℚ × ℚ) × (ℚ × ℚ)))
  kept : List β
deriving DecidableEq

/-- One damage pass of a projectile of rectangle R and damage d over the
enemy collection: every overlapped enemy loses d health and is removed at
once when its health falls to 0 or below. -/
def damagedEnemies (en : List Enemy) (R : Rect) (d : ℚ) : List Enemy :=
  en.filterMap (fun e =>
    if e.rect.colliderect R then
      (if e.health - d ≤ 0 then none else some { e with health := e.health - d })
    else some e)

/-- Chain lightning application plus the effect recording of the main
loop: the surviving enemies, and the effect list extended exactly when the
chain produced segments. -/
def chainAndRecord (startEnemy : Enemy) (en : List Enemy)
    (effects : List (List ((ℚ × ℚ) × (ℚ × ℚ)))) (d : ℚ) :
    List Enemy × List (List ((ℚ × ℚ) × (ℚ × ℚ))) :=
  ((chain_lightning_strike startEnemy en d 4).2,
   if (chain_lightning_strike startEnemy en d 4).1 ≠ []
     then effects ++ [(chain_lightning_strike startEnemy en d 4).1] else effects)

/-- Resolve one player bullet: damage every overlapped enemy (dead ones are
removed at once), trigger chain lightning at half damage when enabled
(seeded at the first overlapped enemy), and consume the bullet on any
contact; a bullet with no contact is kept. -/
def bulletStep (chainOn : Bool) (acc : HitAcc Bullet) (b : Bullet) : HitAcc Bullet :=
  match acc.enemies.filter (fun e => e.rect.colliderect b.rect) with
  | [] => { acc with kept := acc.kept ++ [b] }
  | startEnemy :: _ =>
    if chainOn then
      { enemies := (chainAndRecord startEnemy (damagedEnemies acc.enemies b.rect b.damage)
          acc.effects (b.damage * 0.5)).1
        effects := (chainAndRecord startEnemy (damagedEnemies acc.enemies b.rect b.damage)
          acc.effects (b.damage * 0.5)).2
        kept := acc.kept }
    else { acc with enemies := damagedEnemies acc.enemies b.rect b.damage }

/-- Player-bullet collision pass over all bullets in order. -/
def playerBulletPhase (s : GameState) : GameState :=
  { s with
    enemies := (s.player_bullets.foldl (bulletStep s.player.has_chain_lightning)
      { enemies := s.enemies, effects := s.effects, kept := [] }).enemies
    effects := (s.player_bullets.foldl (bulletStep s.player.has_chain_lightning)
      { enemies := s.enemies, effects := s.effects, kept := [] }).effects
    player_bullets := (s.player_bullets.foldl (bulletStep s.player.has_chain_lightning)
      { enemies := s.enemies, effects := s.effects, kept := [] }).kept }

/-- Resolve one bouncy ball: identical damage/chain logic, but the ball
spends one collision instead of being consumed; it disappears only when
its collision budget reaches 0. -/
def ballStep (chainOn : Bool) (acc : HitAcc Ball) (ball : Ball) : HitAcc Ball :=
  match acc.enemies.filter (fun e => e.rect.colliderect ball.rect) with
  | [] => { acc with kept := acc.kept ++ [ball] }
  | startEnemy :: _ =>
    { enemies :=
        if chainOn then
          (chainAndRecord startEnemy (damagedEnemies acc.enemies ball.rect ball.damage)
            acc.effects (ball.damage * 0.5)).1
        else damagedEnemies acc.enemies ball.rect ball.damage
      effects :=
        if chainOn then
          (chainAndRecord startEnemy (damagedEnemies acc.enemies ball.rect ball.damage)
            acc.effects (ball.damage * 0.5)).2
        else acc.effects
      kept :=
        match ballOnCollision ball with
        | none => acc.kept
        | some ball2 => acc.kept ++ [ball2] }

/-- Bouncy-ball collision pass over all balls in order. -/
def ballPhase (s : GameState) : GameState :=
  { s with
    enemies := (s.bouncy_balls.foldl (ballStep s.player.has_chain_lightning)
      { enemies := s.enemies, effects := s.effects, kept := [] }).enemies
    effects := (s.bouncy_balls.foldl (ballStep s.player.has_chain_lightning)
      { enemies := s.enemies, effects := s.effects, kept := [] }).effects
    bouncy_balls := (s.bouncy_balls.foldl (ballStep s.player.has_chain_lightning)
      { enemies := s.enemies, effects := s.effects, kept := [] }).kept }

/-- Accumulator of the enemy-bullet pass: player health (floored at 0),
enemy collection (thorns removals), kept bullets, and the session state
(set to gameOver the moment health reaches 0). -/
structure EbAcc where
  health : ℚ
  enemies : List Enemy
  kept : List Bullet
  state : SState
deriving DecidableEq

/-- Thorns retaliation: when the player has thorns and the bullet carries
an owner still alive in the enemy collection, that owner is removed. -/
def thornsRemove (thorns : Bool) (owner : Option ℕ) (enemies : List Enemy) : List Enemy :=
  if thorns then
    match owner with
    | some oid => if (enemies.map Enemy.id).contains oid
        then enemies.filter (fun e => e.id ≠ oid) else enemies
    | none => enemies
  else enemies

/-- Resolve one enemy bullet against the player: on overlap, health drops
by the bullet damage floored at 0, thorns retaliation fires, the bullet is
consumed, and the state becomes gameOver the moment health reaches 0. -/
def enemyBulletStep (playerRect : Rect) (thorns : Bool) (acc : EbAcc) (b : Bullet) : EbAcc :=
  if playerRect.colliderect b.rect then
    { health := max 0 (acc.health - b.damage)
      enemies := thornsRemove thorns b.owner acc.enemies
      kept := acc.kept
      state := if max 0 (acc.health - b.damage) ≤ 0 then .gameOver else acc.state }
  else { acc with kept := acc.kept ++ [b] }

/-- Enemy-bullet collision pass over all enemy bullets in order. -/
def enemyBulletPhase (s : GameState) : GameState :=
  { s with
    player := { s.player with health := (s.enemy_bullets.foldl
      (enemyBulletStep s.player.rect s.player.has_thorns)
      { health := s.player.health, enemies := s.enemies, kept := [],
        state := s.state }).health }
    enemies := (s.enemy_bullets.foldl (enemyBulletStep s.player.rect s.player.has_thorns)
      { health := s.player.health, enemies := s.enemies, kept := [],
        state := s.state }).enemies
    enemy_bullets := (s.enemy_bullets.foldl (enemyBulletStep s.player.rect s.player.has_thorns)
      { health := s.player.health, enemies := s.enemies, kept := [],
        state := s.state }).kept
    state := (s.enemy_bullets.foldl (enemyBulletStep s.player.rect s.player.has_thorns)
      { health := s.player.health, enemies := s.enemies, kept := [],
        state := s.state }).state }

/-- Wave-clear check: if the enemy collection is empty and the state is
still playing, increment the wave; on every second wave enter the
upgrade-choosing state with three sampled powerups and the new wave
pending, otherwise generate the next wave immediately. -/
def waveClearPhase (cfg : Config) (i : FrameIn) (s : GameState) : GameState :=
  if s.enemies = [] ∧ s.state = .playing then
    if s.wave + 1 > 1 ∧ (s.wave + 1 - 1) % 2 = 0 then
      { s with wave := s.wave + 1
               powerup_choices := sample3 powerups i.r1 i.r2 i.r3
               state := .choosing
               pending_wave := some (s.wave + 1) }
    else
      { s with wave := s.wave + 1
               enemies := create_wave cfg (s.wave + 1) i.shapeFor s.nextId
               nextId := s.nextId + waveTotal cfg (s.wave + 1) }
  else s

/-- One playing-state frame of the main loop (lines 568-652 of
src/main.py): movement, bouncy-ball upkeep, sprite updates, then the
collision-and-damage resolver in source order: off-screen cleanup, enemy
fire attempts, player bullets vs enemies, bouncy balls vs enemies, enemy
bullets vs player, wave-clear check. Outside the playing state the
simulation is frozen. -/
def playFrame (cfg : Config) (i : FrameIn) (s : GameState) : GameState :=
  if s.state = .playing then
    waveClearPhase cfg i
      (enemyBulletPhase
        (ballPhase
          (playerBulletPhase
            (firePhase i
              (cleanupPhase cfg
                (updatePhase cfg i
                  (ensurePhase cfg i
                    (movePhase cfg i s))))))))
  else s

/-- Modelled from the spec: the resolver phase order the specification
claims, with the off-screen cleanup as phase five, between the
enemy-bullet pass and the wave-clear check (the source instead performs
the cleanup first). Used only to compare against playFrame. -/
def specOrderFrame (cfg : Config) (i : FrameIn) (s : GameState) : GameState :=
  if s.state = .playing then
    waveClearPhase cfg i
      (cleanupPhase cfg
        (enemyBulletPhase
          (ballPhase
            (playerBulletPhase
              (firePhase i
                (updatePhase cfg i
                  (ensurePhase cfg i
                    (movePhase cfg i s))))))))
  else s

/-- Upgrade selection while choosing (lines 540-552 of src/main.py): apply
the chosen powerup, resume playing, generate the pending wave, and run the
bouncy-ball upkeep. Indices outside the offered range are ignored. -/
def applyChoice (cfg : Config) (i : FrameIn) (idx : ℕ) (s : GameState) : GameState :=
  if s.state = .choosing ∧ idx < s.powerup_choices.length then
    match s.powerup_choices.get? idx with
    | none => s
    | some k =>
      let p := applyPowerup k s.player
      let w := s.pending_wave.getD s.wave
      let enemies := create_wave cfg w i.shapeFor s.nextId
      { s with player := p
               state := .playing
               enemies := enemies
               nextId := s.nextId + waveTotal cfg w
               pending_wave := none
               powerup_choices := []
               bouncy_balls := ensure_bouncy_ball_active cfg.width cfg.height p s.bouncy_balls i.ballDirPos }
  else s

/-- Shoot event while playing (lines 533-539 of src/main.py): the produced
projectiles are all Bullets, so they all join the player-bullet group and
the bouncy-ball group is untouched. -/
def handleShoot (i : FrameIn) (s : GameState) : GameState :=
  if s.state = .playing then
    let r := playerShoot i.now s.player
    { s with player := r.2, player_bullets := s.player_bullets ++ r.1 }
  else s

/-- The session health invariant: player health within [0, max_health],
and every enemy bullet in flight and every enemy's bullet stat carries
nonnegative damage. -/
def HealthInv (s : GameState) : Prop :=
  0 ≤ s.player.health ∧ s.player.health ≤ s.player.max_health ∧
  (∀ b ∈ s.enemy_bullets, 0 ≤ b.damage) ∧
  (∀ e ∈ s.enemies, 0 ≤ e.bullet_damage)

/-- A concrete enemy used in closed witnesses and counterexamples. -/
def exEnemy : Enemy :=
  { id := 0, rect := { x := -22, y := -35, w := 50, h := 30 }, direction := 1, speed := 0,
    health := 5, shoot_cooldown := 1.5, last_shot_time := 0, bullet_speed := 360,
    bullet_damage := 1, shape := 0 }

/-- A concrete player bullet that is both off-screen (bottom above the
screen top) and overlapping exEnemy. -/
def exBullet : Bullet :=
  { rect := { x := 0, y := -30, w := 6, h := 18 }, vx := 0, vy := -900, damage := 1, owner := none }

/-- A concrete playing-state session on which the source phase order and
the order claimed by the spec disagree. -/
def exState : GameState :=
  { player := mkPlayer defaultConfig
    enemies := [exEnemy]
    player_bullets := [exBullet]
    enemy_bullets := []
    bouncy_balls := []
    wave := 1
    state := .playing
    pending_wave := none
    powerup_choices := []
    effects := []
    nextId := 1 }

/-- A concrete frame input with a zero time step and all oracles trivial. -/
def exIn : FrameIn :=
  { direction := 0, dt := 0, now := 0, fireGate := fun _ => false, ballDirPos := true,
    shapeFor := fun _ => 0, r1 := 0, r2 := 0, r3 := 0 }

/-- A concrete playing-state session with the enemy collection cleared,
one wave before an upgrade choice. -/
def exStateCleared : GameState :=
  { exState with enemies := [], player_bullets := [], wave := 2 }

/-- Concrete enemies for the chain-lightning witness. -/
def chainSeed : Enemy := { exEnemy with id := 0, rect := Rect.mkCenter 0 0 50 30, health := 5 }

def chainE1 : Enemy := { exEnemy with id := 1, rect := Rect.mkCenter 10 0 50 30, health := 1 }

def chainE2 : Enemy := { exEnemy with id := 2, rect := Rect.mkCenter 20 0 50 30, health := 5 }

/-- A concrete player bullet far away from exEnemy (no overlap). -/
def exMissBullet : Bullet :=
  { rect := { x := 500, y := 500, w := 6, h := 18 }, vx := 0, vy := -900, damage := 1,
    owner := none }

/-!
Theorems. Shared helper lemmas come first, then one theorem per claim
(with its witness or counterexample as required).
-/

theorem pickOne_mem {α : Type} (l : List α) (r : ℕ) (h : l ≠ []) :
    ∃ a, pickOne l r = some a ∧ a ∈ l := by
  have hl : 0 < l.length := List.length_pos.mpr h
  have hlt : r % l.length < l.length := Nat.mod_lt _ hl
  refine ⟨l.get ⟨r % l.length, hlt⟩, ?_, List.get_mem _ _ _⟩
  simp [pickOne, List.get?_eq_get hlt]

theorem sample3_spec {α : Type} [DecidableEq α] (l : List α) (hn : l.Nodup)
    (h3 : 3 ≤ l.length) (r1 r2 r3 : ℕ) :
    (sample3 l r1 r2 r3).length = 3 ∧ (sample3 l r1 r2 r3).Nodup ∧
      ∀ c ∈ sample3 l r1 r2 r3, c ∈ l := by
  have h0 : l ≠ [] := by
    intro h; subst h; simp at h3
  obtain ⟨a, ha, hamem⟩ := pickOne_mem l r1 h0
  have hl2n : (l.erase a).Nodup := hn.erase a
  have hl2len : (l.erase a).length = l.length - 1 := List.length_erase_of_mem hamem
  have hl2 : l.erase a ≠ [] := by
    intro h
    have := congrArg List.length h
    simp [hl2len] at this
    omega
  obtain ⟨b, hb, hbmem⟩ := pickOne_mem (l.erase a) r2 hl2
  have hba : b ≠ a := ((List.Nodup.mem_erase_iff hn).mp hbmem).1
  have hbl : b ∈ l := ((List.Nodup.mem_erase_iff hn).mp hbmem).2
  have hl3n : ((l.erase a).erase b).Nodup := hl2n.erase b
  have hl3len : ((l.erase a).erase b).length = (l.erase a).length - 1 :=
    List.length_erase_of_mem hbmem
  have hl3 : (l.erase a).erase b ≠ [] := by
    intro h
    have := congrArg List.length h
    simp [hl3len, hl2len] at this
    omega
  obtain ⟨c, hc, hcmem⟩ := pickOne_mem ((l.erase a).erase b) r3 hl3
  have hcb : c ≠ b := ((List.Nodup.mem_erase_iff hl2n).mp hcmem).1
  have hcl2 : c ∈ l.erase a := ((List.Nodup.mem_erase_iff hl2n).mp hcmem).2
  have hca : c ≠ a := ((List.Nodup.mem_erase_iff hn).mp hcl2).1
  have hcl : c ∈ l := ((List.Nodup.mem_erase_iff hn).mp hcl2).2
  have hres : sample3 l r1 r2 r3 = [a, b, c] := by
    simp [sample3, ha, hb, hc]
  refine ⟨?_, ?_, ?_⟩
  · simp [hres]
  · rw [hres]
    have h1 : a ≠ b := fun h => hba h.symm
    have h2 : a ≠ c := fun h => hca h.symm
    have h3 : b ≠ c := fun h => hcb h.symm
    simp [h1, h2, h3]
  · intro x hx
    rw [hres] at hx
    simp only [List.mem_cons, List.not_mem_nil, or_false] at hx
    rcases hx with rfl | rfl | rfl
    exacts [hamem, hbl, hcl]

theorem pyMinFold_spec {α : Type} (f : α → ℚ) :
    ∀ (es : List α) (acc : α),
      (pyMinFold f acc es = acc ∧ ∀ x ∈ es, f acc ≤ f x) ∨
      (∃ l1 l2, es = l1 ++ pyMinFold f acc es :: l2 ∧
        f (pyMinFold f acc es) < f acc ∧
        (∀ x ∈ l1, f (pyMinFold f acc es) < f x) ∧
        ∀ x ∈ es, f (pyMinFold f acc es) ≤ f x) := by
  intro es
  induction es with
  | nil =>
    intro acc
    left
    exact ⟨rfl, by simp⟩
  | cons e es ih =>
    intro acc
    by_cases hlt : f e < f acc
    · have hstep : pyMinFold f acc (e :: es) = pyMinFold f e es := by
        simp [pyMinFold, hlt]
      rcases ih e with ⟨heq, hle⟩ | ⟨l1, l2, hsplit, hlt2, hpre, hall⟩
      · right
        refine ⟨[], es, ?_, ?_, ?_, ?_⟩
        · simp [hstep, heq]
        · rw [hstep, heq]
          exact hlt
        · simp
        · intro x hx
          rw [hstep, heq]
          rcases List.mem_cons.mp hx with rfl | hx2
          · exact le_refl _
          · exact hle x hx2
      · right
        refine ⟨e :: l1, l2, ?_, ?_, ?_, ?_⟩
        · rw [hstep, List.cons_append]
          exact congrArg (List.cons e) hsplit
        · rw [hstep]
          exact lt_trans hlt2 hlt
        · intro x hx
          rw [hstep]
          rcases List.mem_cons.mp hx with rfl | hx2
          · exact hlt2
          · exact hpre x hx2
        · intro x hx
          rw [hstep]
          rcases List.mem_cons.mp hx with rfl | hx2
          · exact le_of_lt hlt2
          · exact hall x hx2
    · have hstep : pyMinFold f acc (e :: es) = pyMinFold f acc es := by
        simp [pyMinFold, hlt]
      have hae : f acc ≤ f e := not_lt.mp hlt
      rcases ih acc with ⟨heq, hle⟩ | ⟨l1, l2, hsplit, hlt2, hpre, hall⟩
      · left
        refine ⟨by rw [hstep, heq], ?_⟩
        intro x hx
        rcases List.mem_cons.mp hx with rfl | hx2
        · exact hae
        · exact hle x hx2
      · right
        refine ⟨e :: l1, l2, ?_, ?_, ?_, ?_⟩
        · rw [hstep, List.cons_append]
          exact congrArg (List.cons e) hsplit
        · rw [hstep]
          exact hlt2
        · intro x hx
          rw [hstep]
          rcases List.mem_cons.mp hx with rfl | hx2
          · exact lt_of_lt_of_le hlt2 hae
          · exact hpre x hx2
        · intro x hx
          rw [hstep]
          rcases List.mem_cons.mp hx with rfl | hx2
          · exact le_trans (le_of_lt hlt2) hae
          · exact hall x hx2

theorem minByKey_firstMin {α : Type} (f : α → ℚ) (l : List α) (t : α)
    (h : minByKey f l = some t) : FirstMin f l t := by
  cases l with
  | nil => simp [minByKey] at h
  | cons e es =>
    have ht : pyMinFold f e es = t := by
      simpa [minByKey] using h
    rcases pyMinFold_spec f es e with ⟨heq, hle⟩ | ⟨l1, l2, hsplit, hlt2, hpre, hall⟩
    · rw [ht] at heq
      constructor
      · refine ⟨[], es, ?_, by simp⟩
        rw [heq]
        rfl
      · intro x hx
        rcases List.mem_cons.mp hx with rfl | hx2
        · rw [heq]
        · rw [heq]
          exact hle x hx2
    · rw [ht] at hsplit hlt2 hpre hall
      constructor
      · refine ⟨e :: l1, l2, ?_, ?_⟩
        · rw [List.cons_append]
          exact congrArg (List.cons e) hsplit
        · intro x hx
          rcases List.mem_cons.mp hx with rfl | hx2
          · exact hlt2
          · exact hpre x hx2
      · intro x hx
        rcases List.mem_cons.mp hx with rfl | hx2
        · exact le_of_lt hlt2
        · exact hall x hx2

theorem FirstMin.mem {α : Type} {f : α → ℚ} {l : List α} {t : α}
    (h : FirstMin f l t) : t ∈ l := by
  obtain ⟨⟨l1, l2, rfl, _⟩, _⟩ := h
  simp

theorem segsFrom_length (pos : ℚ × ℚ) (cs : List (ℚ × ℚ)) :
    (segsFrom pos cs).length = cs.length := by
  induction cs generalizing pos with
  | nil => rfl
  | cons c cs ih => simp [segsFrom, ih]

theorem mem_filter_ne {l : List Enemy} {tid : ℕ} {x : Enemy} :
    x ∈ l.filter (fun e => e.id ≠ tid) ↔ x ∈ l ∧ x.id ≠ tid := by
  simp [List.mem_filter]

theorem filter_ids_nodup {l : List Enemy} (h : (l.map Enemy.id).Nodup) (p : Enemy → Bool) :
    ((l.filter p).map Enemy.id).Nodup :=
  h.sublist (List.Sublist.map Enemy.id (List.filter_sublist l))

theorem update_map_id (en : List Enemy) (tid : ℕ) (h : ℚ) :
    ((en.map (fun e => if e.id = tid then { e with health := h } else e)).map Enemy.id)
      = en.map Enemy.id := by
  rw [List.map_map]
  apply List.map_congr_left
  intro a _
  by_cases hid : a.id = tid <;> simp [hid]

theorem chainUpdate_ids_nodup (d : ℚ) (t : Enemy) (en : List Enemy)
    (h : (en.map Enemy.id).Nodup) : ((chainUpdate d t en).map Enemy.id).Nodup := by
  unfold chainUpdate
  by_cases hdead : t.health - d ≤ 0
  · rw [if_pos hdead]
    exact filter_ids_nodup h _
  · rw [if_neg hdead, update_map_id]
    exact h

theorem chainUpdate_ids_sub (d : ℚ) (t : Enemy) (en : List Enemy) :
    ∀ i ∈ (chainUpdate d t en).map Enemy.id, i ∈ en.map Enemy.id := by
  intro i hi
  unfold chainUpdate at hi
  by_cases hdead : t.health - d ≤ 0
  · rw [if_pos hdead] at hi
    obtain ⟨a, ha, rfl⟩ := List.mem_map.mp hi
    exact List.mem_map_of_mem Enemy.id (List.mem_of_mem_filter ha)
  · rw [if_neg hdead, update_map_id] at hi
    exact hi

theorem chainUpdate_mem_of_ne (d : ℚ) (t : Enemy) (en : List Enemy) (e : Enemy)
    (he : e ∈ en) (hne : e.id ≠ t.id) : e ∈ chainUpdate d t en := by
  unfold chainUpdate
  by_cases hdead : t.health - d ≤ 0
  · rw [if_pos hdead]
    exact mem_filter_ne.mpr ⟨he, hne⟩
  · rw [if_neg hdead]
    have : (fun e => if e.id = t.id then { e with health := t.health - d } else e) e = e := by
      simp [hne]
    rw [← this]
    exact List.mem_map_of_mem _ he

theorem chainStep_spec (d : ℚ) (n : ℕ) :
    ∀ (pos : ℚ × ℚ) (rem en : List Enemy),
      (en.map Enemy.id).Nodup →
      (rem.map Enemy.id).Nodup →
      (∀ r ∈ rem, r ∈ en) →
      (chainStep d n pos rem en).1.length ≤ n ∧
      (∀ t ∈ (chainStep d n pos rem en).1, t ∈ rem) ∧
      ((chainStep d n pos rem en).1.map Enemy.id).Nodup ∧
      NearestChainFrom pos rem (chainStep d n pos rem en).1 ∧
      ((chainStep d n pos rem en).2.1
        = segsFrom pos ((chainStep d n pos rem en).1.map Enemy.center)) ∧
      (∀ i ∈ (chainStep d n pos rem en).2.2.map Enemy.id, i ∈ en.map Enemy.id) ∧
      ((chainStep d n pos rem en).2.2.map Enemy.id).Nodup ∧
      (∀ e ∈ en, e.id ∉ (chainStep d n pos rem en).1.map Enemy.id
        → e ∈ (chainStep d n pos rem en).2.2) ∧
      (∀ t ∈ (chainStep d n pos rem en).1,
        (t.health - d ≤ 0 → t.id ∉ (chainStep d n pos rem en).2.2.map Enemy.id) ∧
        (0 < t.health - d
          → { t with health := t.health - d } ∈ (chainStep d n pos rem en).2.2)) := by
  induction n with
  | zero =>
    intro pos rem en hennd hremnd hrem
    refine ⟨by simp [chainStep], by simp [chainStep], by simp [chainStep],
      ?_, by simp [chainStep, segsFrom], by simp [chainStep],
      by simpa [chainStep] using hennd, ?_, by simp [chainStep]⟩
    · have : (chainStep d 0 pos rem en).1 = [] := by simp [chainStep]
      rw [this]
      exact NearestChainFrom.nil pos rem
    · intro e he _
      simpa [chainStep] using he
  | succ n ih =>
    intro pos rem en hennd hremnd hrem
    cases hmin : minByKey (fun e => distSq e.center pos) rem with
    | none =>
      refine ⟨by simp [chainStep, hmin], by simp [chainStep, hmin], by simp [chainStep, hmin],
        ?_, by simp [chainStep, hmin, segsFrom], by simp [chainStep, hmin],
        by simpa [chainStep, hmin] using hennd, ?_, by simp [chainStep, hmin]⟩
      · have : (chainStep d (n + 1) pos rem en).1 = [] := by simp [chainStep, hmin]
        rw [this]
        exact NearestChainFrom.nil pos rem
      · intro e he _
        simpa [chainStep, hmin] using he
    | some t =>
      have hstep : chainStep d (n + 1) pos rem en =
          (t :: (chainStep d n t.center (rem.filter (fun e => e.id ≠ t.id))
              (chainUpdate d t en)).1,
           (pos, t.center) :: (chainStep d n t.center (rem.filter (fun e => e.id ≠ t.id))
              (chainUpdate d t en)).2.1,
           (chainStep d n t.center (rem.filter (fun e => e.id ≠ t.id))
              (chainUpdate d t en)).2.2) := by
        simp [chainStep, hmin]
      have hfm : FirstMin (fun e => distSq e.center pos) rem t := minByKey_firstMin _ _ _ hmin
      have htrem : t ∈ rem := hfm.mem
      have htin : t ∈ en := hrem t htrem
      have hrem2nd : ((rem.filter (fun e => e.id ≠ t.id)).map Enemy.id).Nodup :=
        filter_ids_nodup hremnd _
      have hen2nd : ((chainUpdate d t en).map Enemy.id).Nodup :=
        chainUpdate_ids_nodup d t en hennd
      have hrem2en2 : ∀ r ∈ rem.filter (fun e => e.id ≠ t.id), r ∈ chainUpdate d t en := by
        intro r hr
        obtain ⟨hr1, hr2⟩ := mem_filter_ne.mp hr
        exact chainUpdate_mem_of_ne d t en r (hrem r hr1) hr2
      obtain ⟨ih1, ih2, ih3, ih4, ih5, ih6, ih7, ih8, ih9⟩ :=
        ih t.center (rem.filter (fun e => e.id ≠ t.id)) (chainUpdate d t en)
          hen2nd hrem2nd hrem2en2
      have htid_notin : t.id ∉ (chainStep d n t.center (rem.filter (fun e => e.id ≠ t.id))
          (chainUpdate d t en)).1.map Enemy.id := by
        intro hmem
        obtain ⟨x, hx, hxid⟩ := List.mem_map.mp hmem
        exact (mem_filter_ne.mp (ih2 x hx)).2 hxid
      rw [hstep]
      refine ⟨?_, ?_, ?_, ?_, ?_, ?_, ?_, ?_, ?_⟩
      · simpa using Nat.succ_le_succ ih1
      · intro x hx
        rcases List.mem_cons.mp hx with rfl | hx2
        · exact htrem
        · exact (mem_filter_ne.mp (ih2 x hx2)).1
      · simp only [List.map_cons, List.nodup_cons]
        exact ⟨htid_notin, ih3⟩
      · exact NearestChainFrom.cons pos rem t _ hfm ih4
      · simp only [List.map_cons, segsFrom]
        rw [ih5]
      · intro i hi
        exact chainUpdate_ids_sub d t en i (ih6 i hi)
      · exact ih7
      · intro e he hne
        simp only [List.map_cons, List.mem_cons] at hne
        push_neg at hne
        exact ih8 e (chainUpdate_mem_of_ne d t en e he hne.1) hne.2
      · intro x hx
        rcases List.mem_cons.mp hx with rfl | hx2
        · constructor
          · intro hdead hmem
            have hin2 : x.id ∈ (chainUpdate d x en).map Enemy.id := ih6 x.id hmem
            unfold chainUpdate at hin2
            rw [if_pos hdead] at hin2
            obtain ⟨a, ha, haid⟩ := List.mem_map.mp hin2
            exact (mem_filter_ne.mp ha).2 haid
          · intro halive
            have hnd : ¬ x.health - d ≤ 0 := not_le.mpr halive
            have hupd : { x with health := x.health - d } ∈ chainUpdate d x en := by
              unfold chainUpdate
              rw [if_neg hnd]
              have hx1 : (fun e => if e.id = x.id then { e with health := x.health - d } else e) x
                  = { x with health := x.health - d } := by simp
              rw [← hx1]
              exact List.mem_map_of_mem _ htin
            exact ih8 _ hupd htid_notin
        · exact ih9 x hx2

theorem damageFilterMap_src (en : List Enemy) (R : Rect) (d : ℚ) :
    ∀ x ∈ en.filterMap (fun e =>
      if e.rect.colliderect R then
        (if e.health - d ≤ 0 then none else some { e with health := e.health - d })
      else some e),
      ∃ e ∈ en, x.rect = e.rect ∧ x.bullet_damage = e.bullet_damage := by
  intro x hx
  obtain ⟨a, ha, hfa⟩ := List.mem_filterMap.mp hx
  by_cases hc : a.rect.colliderect R
  · rw [if_pos hc] at hfa
    by_cases hd : a.health - d ≤ 0
    · rw [if_pos hd] at hfa
      simp at hfa
    · rw [if_neg hd] at hfa
      obtain rfl := Option.some_injective _ hfa
      exact ⟨a, ha, rfl, rfl⟩
  · rw [if_neg hc] at hfa
    obtain rfl := Option.some_injective _ hfa
    exact ⟨a, ha, rfl, rfl⟩

theorem chainUpdate_src (d : ℚ) (t : Enemy) (en : List Enemy) :
    ∀ x ∈ chainUpdate d t en, ∃ e ∈ en, x.rect = e.rect ∧ x.bullet_damage = e.bullet_damage := by
  intro x hx
  unfold chainUpdate at hx
  by_cases hdead : t.health - d ≤ 0
  · rw [if_pos hdead] at hx
    exact ⟨x, List.mem_of_mem_filter hx, rfl, rfl⟩
  · rw [if_neg hdead] at hx
    obtain ⟨a, ha, hfa⟩ := List.mem_map.mp hx
    by_cases hid : a.id = t.id
    · rw [if_pos hid] at hfa
      exact ⟨a, ha, by rw [← hfa], by rw [← hfa]⟩
    · rw [if_neg hid] at hfa
      exact ⟨a, ha, by rw [← hfa], by rw [← hfa]⟩

theorem chainStep_src (d : ℚ) (n : ℕ) :
    ∀ (pos : ℚ × ℚ) (rem en : List Enemy),
      ∀ x ∈ (chainStep d n pos rem en).2.2,
        ∃ e ∈ en, x.rect = e.rect ∧ x.bullet_damage = e.bullet_damage := by
  induction n with
  | zero =>
    intro pos rem en x hx
    simp only [chainStep] at hx
    exact ⟨x, hx, rfl, rfl⟩
  | succ n ih =>
    intro pos rem en x hx
    cases hmin : minByKey (fun e => distSq e.center pos) rem with
    | none =>
      simp only [chainStep, hmin] at hx
      exact ⟨x, hx, rfl, rfl⟩
    | some t =>
      simp only [chainStep, hmin] at hx
      obtain ⟨e2, he2, hr2, hd2⟩ := ih t.center (rem.filter (fun e => e.id ≠ t.id))
        (chainUpdate d t en) x hx
      obtain ⟨e, he, hr, hd3⟩ := chainUpdate_src d t en e2 he2
      exact ⟨e, he, hr2.trans hr, hd2.trans hd3⟩

theorem damagedEnemies_src (en : List Enemy) (R : Rect) (d : ℚ) :
    ∀ x ∈ damagedEnemies en R d,
      ∃ e ∈ en, x.rect = e.rect ∧ x.bullet_damage = e.bullet_damage :=
  damageFilterMap_src en R d

theorem chainAndRecord_src (s0 : Enemy) (en : List Enemy)
    (effects : List (List ((ℚ × ℚ) × (ℚ × ℚ)))) (d : ℚ) :
    ∀ x ∈ (chainAndRecord s0 en effects d).1,
      ∃ e ∈ en, x.rect = e.rect ∧ x.bullet_damage = e.bullet_damage := by
  intro x hx
  exact chainStep_src d 4 s0.center _ _ x hx

theorem bulletStep_src (chainOn : Bool) (acc : HitAcc Bullet) (b : Bullet) :
    ∀ x ∈ (bulletStep chainOn acc b).enemies,
      ∃ e ∈ acc.enemies, x.rect = e.rect ∧ x.bullet_damage = e.bullet_damage := by
  intro x hx
  rcases hhits : acc.enemies.filter (fun e => e.rect.colliderect b.rect) with _ | ⟨s0, rest⟩
  · simp only [bulletStep, hhits] at hx
    exact ⟨x, hx, rfl, rfl⟩
  · by_cases hco : chainOn = true
    · simp only [bulletStep, hhits, hco, if_true] at hx
      obtain ⟨e2, he2, hr2, hd2⟩ := chainAndRecord_src s0 _ acc.effects (b.damage * 0.5) x hx
      obtain ⟨e, he, hr, hd3⟩ := damagedEnemies_src acc.enemies b.rect b.damage e2 he2
      exact ⟨e, he, hr2.trans hr, hd2.trans hd3⟩
    · simp only [bulletStep, hhits, hco, if_false, Bool.false_eq_true] at hx
      exact damagedEnemies_src acc.enemies b.rect b.damage x hx

theorem ballStep_src (chainOn : Bool) (acc : HitAcc Ball) (b : Ball) :
    ∀ x ∈ (ballStep chainOn acc b).enemies,
      ∃ e ∈ acc.enemies, x.rect = e.rect ∧ x.bullet_damage = e.bullet_damage := by
  intro x hx
  rcases hhits : acc.enemies.filter (fun e => e.rect.colliderect b.rect) with _ | ⟨s0, rest⟩
  · simp only [ballStep, hhits] at hx
    exact ⟨x, hx, rfl, rfl⟩
  · by_cases hco : chainOn = true
    · simp only [ballStep, hhits, hco, if_true] at hx
      obtain ⟨e2, he2, hr2, hd2⟩ := chainAndRecord_src s0 _ acc.effects (b.damage * 0.5) x hx
      obtain ⟨e, he, hr, hd3⟩ := damagedEnemies_src acc.enemies b.rect b.damage e2 he2
      exact ⟨e, he, hr2.trans hr, hd2.trans hd3⟩
    · simp only [ballStep, hhits, hco, if_false, Bool.false_eq_true] at hx
      exact damagedEnemies_src acc.enemies b.rect b.damage x hx

theorem bulletStep_miss (chainOn : Bool) (acc : HitAcc Bullet) (b : Bullet)
    (h : acc.enemies.filter (fun e => e.rect.colliderect b.rect) = []) :
    bulletStep chainOn acc b = { acc with kept := acc.kept ++ [b] } := by
  simp only [bulletStep, h]

theorem bulletStep_kept_extend (chainOn : Bool) (acc : HitAcc Bullet) (b : Bullet) :
    ∃ tail, (bulletStep chainOn acc b).kept = acc.kept ++ tail := by
  rcases hhits : acc.enemies.filter (fun e => e.rect.colliderect b.rect) with _ | ⟨s0, rest⟩
  · exact ⟨[b], by simp [bulletStep, hhits]⟩
  · by_cases hco : chainOn = true
    · exact ⟨[], by simp [bulletStep, hhits, hco]⟩
    · exact ⟨[], by simp [bulletStep, hhits, hco]⟩

theorem bulletFold_miss_kept (chainOn : Bool) (enemies0 : List Enemy) (b : Bullet)
    (hb : ∀ e ∈ enemies0, e.rect.colliderect b.rect = false) :
    ∀ (bullets : List Bullet) (acc : HitAcc Bullet),
      (∀ x ∈ acc.enemies, ∃ e ∈ enemies0, x.rect = e.rect) →
      (b ∈ acc.kept ∨ b ∈ bullets) →
      b ∈ (bullets.foldl (bulletStep chainOn) acc).kept := by
  intro bullets
  induction bullets with
  | nil =>
    intro acc hrects hmem
    rcases hmem with hk | hnil
    · simpa using hk
    · simp at hnil
  | cons c cs ih =>
    intro acc hrects hmem
    have hrects2 : ∀ x ∈ (bulletStep chainOn acc c).enemies,
        ∃ e ∈ enemies0, x.rect = e.rect := by
      intro x hx
      obtain ⟨e2, he2, hr2, _⟩ := bulletStep_src chainOn acc c x hx
      obtain ⟨e, he, hr⟩ := hrects e2 he2
      exact ⟨e, he, hr2.trans hr⟩
    rcases hmem with hk | hmemb
    · obtain ⟨tail, htail⟩ := bulletStep_kept_extend chainOn acc c
      refine ih (bulletStep chainOn acc c) hrects2 (Or.inl ?_)
      rw [htail]
      exact List.mem_append_left _ hk
    · rcases List.mem_cons.mp hmemb with rfl | hcs
      · have hhits : acc.enemies.filter (fun e => e.rect.colliderect b.rect) = [] := by
          rw [List.filter_eq_nil_iff]
          intro x hx
          obtain ⟨e, he, hr⟩ := hrects x hx
          simp [hr, hb e he]
        refine ih _ hrects2 (Or.inl ?_)
        rw [bulletStep_miss chainOn acc b hhits]
        simp
      · exact ih _ hrects2 (Or.inr hcs)

/-- C7: a player bullet overlapping zero enemies leaves the single-bullet
resolution step completely inert: the enemy collection (hence every enemy
health), the effect list (hence chain propagation), and the kept-bullet
list except for keeping the bullet itself are unchanged; such a bullet
survives the whole collision pass; and the off-screen check removes a
bullet exactly when its bottom edge is above the top of the screen. -/
theorem c7_missed_bullet_untouched :
    (∀ (chainOn : Bool) (acc : HitAcc Bullet) (b : Bullet),
      acc.enemies.filter (fun e => e.rect.colliderect b.rect) = [] →
      bulletStep chainOn acc b = { acc with kept := acc.kept ++ [b] }) ∧
    (∀ (s : GameState) (b : Bullet),
      b ∈ s.player_bullets →
      (∀ e ∈ s.enemies, e.rect.colliderect b.rect = false) →
      b ∈ (playerBulletPhase s).player_bullets) ∧
    (∀ (cfg : Config) (s : GameState) (b : Bullet),
      b ∈ (cleanupPhase cfg s).player_bullets ↔
        b ∈ s.player_bullets ∧ ¬ b.rect.bottom < 0) := by
  refine ⟨bulletStep_miss, ?_, ?_⟩
  · intro s b hmem hmiss
    have hk : b ∈ ((s.player_bullets.foldl (bulletStep s.player.has_chain_lightning)
        { enemies := s.enemies, effects := s.effects, kept := [] }).kept) := by
      apply bulletFold_miss_kept s.player.has_chain_lightning s.enemies b hmiss
      · intro x hx
        exact ⟨x, hx, rfl⟩
      · exact Or.inr hmem
    exact hk
  · intro cfg s b
    simp [cleanupPhase, List.mem_filter]

/-- Witness for C7 at a concrete accumulator holding one enemy and a
bullet that overlaps nothing. -/
theorem c7_missed_bullet_untouched_witness :
    ((⟨[exEnemy], [], []⟩ : HitAcc Bullet).enemies.filter
        (fun e => e.rect.colliderect exMissBullet.rect) = []) ∧
      bulletStep false ⟨[exEnemy], [], []⟩ exMissBullet
        = { (⟨[exEnemy], [], []⟩ : HitAcc Bullet) with kept := [] ++ [exMissBullet] } :=
  ⟨by decide,
    c7_missed_bullet_untouched.1 false ⟨[exEnemy], [], []⟩ exMissBullet (by decide)⟩

theorem ballStep_kept_le (chainOn : Bool) (acc : HitAcc Ball) (b : Ball) :
    (ballStep chainOn acc b).kept.length ≤ acc.kept.length + 1 := by
  rcases hhits : acc.enemies.filter (fun e => e.rect.colliderect b.rect) with _ | ⟨s0, rest⟩
  · simp [ballStep, hhits]
  · rcases hob : ballOnCollision b with _ | b2
    · simp [ballStep, hhits, hob]
    · simp [ballStep, hhits, hob]

theorem ballFold_kept_le (chainOn : Bool) :
    ∀ (balls : List Ball) (acc : HitAcc Ball),
      (balls.foldl (ballStep chainOn) acc).kept.length ≤ acc.kept.length + balls.length := by
  intro balls
  induction balls with
  | nil =>
    intro acc
    simp
  | cons c cs ih =>
    intro acc
    have h1 := ih (ballStep chainOn acc c)
    have h2 := ballStep_kept_le chainOn acc c
    simp only [List.foldl_cons, List.length_cons]
    omega

theorem waveClear_balls (cfg : Config) (i : FrameIn) (s : GameState) :
    (waveClearPhase cfg i s).bouncy_balls = s.bouncy_balls := by
  unfold waveClearPhase
  split
  · split <;> rfl
  · rfl

theorem ensure_len (W H : ℚ) (p : Player) (balls : List Ball) (dir : Bool)
    (h : balls.length ≤ 1) : (ensure_bouncy_ball_active W H p balls dir).length ≤ 1 := by
  unfold ensure_bouncy_ball_active
  split
  · exact h
  · rename_i hcond
    push_neg at hcond
    rw [hcond.2]
    simp

/-- C9: the bouncy-ball collection never holds more than one ball. The
upkeep routine spawns nothing when the ability is missing or a ball is
already active, spawns exactly one ball when the ability is present and
the collection is empty (so an expired ball is replaced on the next
playing frame, every time), a full playing frame preserves the at-most-one
bound, and the shoot event never adds a ball. -/
theorem c9_single_bouncy_ball :
    (∀ (W H : ℚ) (p : Player) (balls : List Ball) (dir : Bool),
      (p.has_bouncy_ball = false ∨ balls ≠ []) →
        ensure_bouncy_ball_active W H p balls dir = balls) ∧
    (∀ (W H : ℚ) (p : Player) (dir : Bool),
      p.has_bouncy_ball = true →
        (ensure_bouncy_ball_active W H p [] dir).length = 1) ∧
    (∀ (cfg : Config) (i : FrameIn) (s : GameState),
      s.bouncy_balls.length ≤ 1 → (playFrame cfg i s).bouncy_balls.length ≤ 1) ∧
    (∀ (i : FrameIn) (s : GameState), (handleShoot i s).bouncy_balls = s.bouncy_balls) := by
  refine ⟨?_, ?_, ?_, ?_⟩
  · intro W H p balls dir h
    unfold ensure_bouncy_ball_active
    rw [if_pos h]
  · intro W H p dir h
    unfold ensure_bouncy_ball_active
    rw [if_neg]
    · simp
    · simp [h]
  · intro cfg i s hlen
    by_cases hp : s.state = .playing
    · unfold playFrame
      rw [if_pos hp, waveClear_balls]
      have hX : (enemyBulletPhase
          (ballPhase
            (playerBulletPhase
              (firePhase i
                (cleanupPhase cfg
                  (updatePhase cfg i
                    (ensurePhase cfg i
                      (movePhase cfg i s)))))))).bouncy_balls
          = (ballPhase
            (playerBulletPhase
              (firePhase i
                (cleanupPhase cfg
                  (updatePhase cfg i
                    (ensurePhase cfg i
                      (movePhase cfg i s))))))).bouncy_balls := rfl
      rw [hX]
      have hfold := ballFold_kept_le
        (playerBulletPhase (firePhase i (cleanupPhase cfg (updatePhase cfg i
          (ensurePhase cfg i (movePhase cfg i s)))))).player.has_chain_lightning
        (playerBulletPhase (firePhase i (cleanupPhase cfg (updatePhase cfg i
          (ensurePhase cfg i (movePhase cfg i s)))))).bouncy_balls
        { enemies := (playerBulletPhase (firePhase i (cleanupPhase cfg (updatePhase cfg i
            (ensurePhase cfg i (movePhase cfg i s)))))).enemies
          effects := (playerBulletPhase (firePhase i (cleanupPhase cfg (updatePhase cfg i
            (ensurePhase cfg i (movePhase cfg i s)))))).effects
          kept := [] }
      have hXballs : (playerBulletPhase (firePhase i (cleanupPhase cfg (updatePhase cfg i
          (ensurePhase cfg i (movePhase cfg i s)))))).bouncy_balls
          = (ensurePhase cfg i (movePhase cfg i s)).bouncy_balls.filterMap
              (ballUpdate cfg.width cfg.height i.dt) := rfl
      have hupd : ((ensurePhase cfg i (movePhase cfg i s)).bouncy_balls.filterMap
          (ballUpdate cfg.width cfg.height i.dt)).length
          ≤ (ensurePhase cfg i (movePhase cfg i s)).bouncy_balls.length :=
        List.length_filterMap_le _ _
      have hens : (ensurePhase cfg i (movePhase cfg i s)).bouncy_balls.length ≤ 1 := by
        have : (movePhase cfg i s).bouncy_balls = s.bouncy_balls := rfl
        exact ensure_len cfg.width cfg.height (movePhase cfg i s).player s.bouncy_balls
          i.ballDirPos hlen
      show (ballPhase (playerBulletPhase (firePhase i (cleanupPhase cfg (updatePhase cfg i
        (ensurePhase cfg i (movePhase cfg i s))))))).bouncy_balls.length ≤ 1
      have hbp : (ballPhase (playerBulletPhase (firePhase i (cleanupPhase cfg (updatePhase cfg i
          (ensurePhase cfg i (movePhase cfg i s))))))).bouncy_balls
          = ((playerBulletPhase (firePhase i (cleanupPhase cfg (updatePhase cfg i
              (ensurePhase cfg i (movePhase cfg i s)))))).bouncy_balls.foldl
            (ballStep (playerBulletPhase (firePhase i (cleanupPhase cfg (updatePhase cfg i
              (ensurePhase cfg i (movePhase cfg i s)))))).player.has_chain_lightning)
            { enemies := (playerBulletPhase (firePhase i (cleanupPhase cfg (updatePhase cfg i
                (ensurePhase cfg i (movePhase cfg i s)))))).enemies
              effects := (playerBulletPhase (firePhase i (cleanupPhase cfg (updatePhase cfg i
                (ensurePhase cfg i (movePhase cfg i s)))))).effects
              kept := [] }).kept := rfl
      rw [hbp]
      have hlenX : (playerBulletPhase (firePhase i (cleanupPhase cfg (updatePhase cfg i
          (ensurePhase cfg i (movePhase cfg i s)))))).bouncy_balls.length ≤ 1 := by
        rw [hXballs]
        exact le_trans hupd hens
      simp only [List.length_nil, Nat.zero_add] at hfold
      omega
    · unfold playFrame
      rw [if_neg hp]
      exact hlen
  · intro i s
    unfold handleShoot
    split <;> rfl

/-- Witness for C9 at a concrete player holding the bouncy-ball ability
and an empty ball collection. -/
theorem c9_single_bouncy_ball_witness :
    ({ mkPlayer defaultConfig with has_bouncy_ball := true }.has_bouncy_ball = true) ∧
      (ensure_bouncy_ball_active 960 720 { mkPlayer defaultConfig with has_bouncy_ball := true }
        [] true).length = 1 :=
  ⟨rfl, c9_single_bouncy_ball.2.1 960 720
    { mkPlayer defaultConfig with has_bouncy_ball := true } true rfl⟩

/-- C4: chain propagation from a seed over an enemy collection with
distinct identities strikes at most maxHops enemies, one segment per
struck enemy chained from position to position, each enemy at most once
and never the seed, always the nearest remaining candidate (first
encountered on ties); every struck candidate leaves the candidate list,
and it leaves the live enemy collection exactly when its damaged health
fell to 0 or below (surviving targets stay with reduced health; untouched
enemies are preserved and no new enemies appear). -/
theorem c4_chain_propagation (start : Enemy) (enemies : List Enemy) (d : ℚ) (hops : ℕ)
    (hnd : (enemies.map Enemy.id).Nodup) :
    (chainTrace start enemies d hops).1.length ≤ hops ∧
    (chainTrace start enemies d hops).2.1.length = (chainTrace start enemies d hops).1.length ∧
    ((chainTrace start enemies d hops).1.map Enemy.id).Nodup ∧
    start.id ∉ (chainTrace start enemies d hops).1.map Enemy.id ∧
    NearestChainFrom start.center (enemies.filter (fun e => e.id ≠ start.id))
      (chainTrace start enemies d hops).1 ∧
    ((chainTrace start enemies d hops).2.1
      = segsFrom start.center ((chainTrace start enemies d hops).1.map Enemy.center)) ∧
    (∀ i ∈ (chainTrace start enemies d hops).2.2.map Enemy.id, i ∈ enemies.map Enemy.id) ∧
    ((chainTrace start enemies d hops).2.2.map Enemy.id).Nodup ∧
    (∀ e ∈ enemies, e.id ∉ (chainTrace start enemies d hops).1.map Enemy.id
      → e ∈ (chainTrace start enemies d hops).2.2) ∧
    (∀ t ∈ (chainTrace start enemies d hops).1,
      (t.health - d ≤ 0 → t.id ∉ (chainTrace start enemies d hops).2.2.map Enemy.id) ∧
      (0 < t.health - d
        → { t with health := t.health - d } ∈ (chainTrace start enemies d hops).2.2)) ∧
    chain_lightning_strike start enemies d hops
      = ((chainTrace start enemies d hops).2.1, (chainTrace start enemies d hops).2.2) := by
  have hsub : ∀ r ∈ enemies.filter (fun e => e.id ≠ start.id), r ∈ enemies :=
    fun r hr => (mem_filter_ne.mp hr).1
  obtain ⟨h1, h2, h3, h4, h5, h6, h7, h8, h9⟩ :=
    chainStep_spec d hops start.center (enemies.filter (fun e => e.id ≠ start.id)) enemies
      hnd (filter_ids_nodup hnd _) hsub
  refine ⟨h1, ?_, h3, ?_, h4, h5, h6, h7, h8, h9, rfl⟩
  · show (chainTrace start enemies d hops).2.1.length = _
    have h5t : (chainTrace start enemies d hops).2.1
        = segsFrom start.center ((chainTrace start enemies d hops).1.map Enemy.center) := h5
    rw [h5t, segsFrom_length, List.length_map]
  · intro hmem
    obtain ⟨x, hx, hxid⟩ := List.mem_map.mp hmem
    exact (mem_filter_ne.mp (h2 x hx)).2 hxid

/-- Witness for C4 at a concrete three-enemy collection. -/
theorem c4_chain_propagation_witness :
    (([chainSeed, chainE1, chainE2].map Enemy.id).Nodup) ∧
      (chainTrace chainSeed [chainSeed, chainE1, chainE2] 1 4).1.length ≤ 4 :=
  ⟨by decide,
    (c4_chain_propagation chainSeed [chainSeed, chainE1, chainE2] 1 4 (by decide)).1⟩

theorem tryShoot_damage (e : Enemy) (now : ℚ) (g : Bool) :
    ((tryShoot e now g).2.bullet_damage = e.bullet_damage) ∧
    (∀ b, (tryShoot e now g).1 = some b → b.damage = e.bullet_damage) := by
  unfold tryShoot
  split
  · exact ⟨rfl, by intro b h; simp at h⟩
  · split
    · refine ⟨rfl, ?_⟩
      intro b h
      simp only [Option.some_inj] at h
      rw [← h]
      rfl
    · exact ⟨rfl, by intro b h; simp at h⟩

theorem create_wave_damage (cfg : Config) (w : ℕ) (shapeFor : ℕ → ℕ) (sid : ℕ) :
    ∀ e ∈ create_wave cfg w shapeFor sid, e.bullet_damage = cfg.enemy_bullet_damage := by
  intro e he
  simp only [create_wave, List.mem_map, List.mem_range] at he
  obtain ⟨idx, _, rfl⟩ := he
  rfl

theorem thornsRemove_sub (th : Bool) (ow : Option ℕ) (en : List Enemy) :
    ∀ x ∈ thornsRemove th ow en, x ∈ en := by
  intro x hx
  unfold thornsRemove at hx
  by_cases hth : th = true
  · rw [if_pos hth] at hx
    cases ow with
    | none => exact hx
    | some oid =>
      dsimp only at hx
      by_cases hc : (en.map Enemy.id).contains oid
      · rw [if_pos hc] at hx
        exact List.mem_of_mem_filter hx
      · rw [if_neg hc] at hx
        exact hx
  · rw [if_neg hth] at hx
    exact hx

theorem enemyBulletStep_facts (pr : Rect) (th : Bool) (M : ℚ) (acc : EbAcc) (c : Bullet) :
    (0 ≤ c.damage → 0 ≤ acc.health → acc.health ≤ M →
      0 ≤ (enemyBulletStep pr th acc c).health ∧ (enemyBulletStep pr th acc c).health ≤ M) ∧
    ((0 < acc.health ∨ acc.state = .gameOver) →
      (0 < (enemyBulletStep pr th acc c).health ∨
        (enemyBulletStep pr th acc c).state = .gameOver)) ∧
    (∀ x ∈ (enemyBulletStep pr th acc c).kept, x ∈ acc.kept ∨ x = c) ∧
    (∀ x ∈ (enemyBulletStep pr th acc c).enemies, x ∈ acc.enemies) := by
  by_cases hov : pr.colliderect c.rect = true
  · refine ⟨?_, ?_, ?_, ?_⟩
    · intro hc h1 h2
      simp only [enemyBulletStep, hov, if_true]
      exact ⟨le_max_left _ _, max_le (le_trans h1 h2) (by linarith)⟩
    · intro h
      simp only [enemyBulletStep, hov, if_true]
      by_cases hz : max 0 (acc.health - c.damage) ≤ 0
      · right
        simp [hz]
      · left
        exact lt_of_not_le hz
    · intro x hx
      simp only [enemyBulletStep, hov, if_true] at hx
      exact Or.inl hx
    · intro x hx
      simp only [enemyBulletStep, hov, if_true] at hx
      exact thornsRemove_sub th c.owner acc.enemies x hx
  · refine ⟨?_, ?_, ?_, ?_⟩
    · intro hc h1 h2
      simp only [enemyBulletStep, hov, if_false]
      exact ⟨h1, h2⟩
    · intro h
      simp only [enemyBulletStep, hov, if_false]
      exact h
    · intro x hx
      simp only [enemyBulletStep, hov, if_false] at hx
      rcases List.mem_append.mp hx with h | h
      · exact Or.inl h
      · exact Or.inr (by simpa using h)
    · intro x hx
      simp only [enemyBulletStep, hov, if_false] at hx
      exact hx

theorem ebFold_spec (pr : Rect) (th : Bool) (M : ℚ) :
    ∀ (bullets : List Bullet) (acc : EbAcc),
      ((∀ b ∈ bullets, 0 ≤ b.damage) → 0 ≤ acc.health → acc.health ≤ M →
        0 ≤ (bullets.foldl (enemyBulletStep pr th) acc).health ∧
        (bullets.foldl (enemyBulletStep pr th) acc).health ≤ M) ∧
      ((0 < acc.health ∨ acc.state = .gameOver) →
        (0 < (bullets.foldl (enemyBulletStep pr th) acc).health ∨
          (bullets.foldl (enemyBulletStep pr th) acc).state = .gameOver)) ∧
      (∀ x ∈ (bullets.foldl (enemyBulletStep pr th) acc).kept,
        x ∈ acc.kept ∨ x ∈ bullets) ∧
      (∀ x ∈ (bullets.foldl (enemyBulletStep pr th) acc).enemies, x ∈ acc.enemies) := by
  intro bullets
  induction bullets with
  | nil =>
    intro acc
    exact ⟨fun _ h1 h2 => ⟨h1, h2⟩, fun h => h, fun x hx => Or.inl hx, fun x hx => hx⟩
  | cons c cs ih =>
    intro acc
    obtain ⟨st1, st2, st3, st4⟩ := enemyBulletStep_facts pr th M acc c
    obtain ⟨ih1, ih2, ih3, ih4⟩ := ih (enemyBulletStep pr th acc c)
    refine ⟨?_, ?_, ?_, ?_⟩
    · intro hb h1 h2
      have hc : 0 ≤ c.damage := hb c (List.mem_cons_self _ _)
      have hcs : ∀ b ∈ cs, 0 ≤ b.damage := fun b h => hb b (List.mem_cons_of_mem _ h)
      obtain ⟨hs1, hs2⟩ := st1 hc h1 h2
      exact ih1 hcs hs1 hs2
    · intro h
      exact ih2 (st2 h)
    · intro x hx
      rcases ih3 x hx with hk | hcs2
      · rcases st3 x hk with h | h
        · exact Or.inl h
        · exact Or.inr (h ▸ List.mem_cons_self _ _)
      · exact Or.inr (List.mem_cons_of_mem _ hcs2)
    · intro x hx
      exact st4 x (ih4 x hx)

theorem bulletFold_src (chainOn : Bool) :
    ∀ (bullets : List Bullet) (acc : HitAcc Bullet),
      ∀ x ∈ (bullets.foldl (bulletStep chainOn) acc).enemies,
        ∃ e ∈ acc.enemies, x.rect = e.rect ∧ x.bullet_damage = e.bullet_damage := by
  intro bullets
  induction bullets with
  | nil =>
    intro acc x hx
    exact ⟨x, hx, rfl, rfl⟩
  | cons c cs ih =>
    intro acc x hx
    obtain ⟨e2, he2, hr2, hd2⟩ := ih (bulletStep chainOn acc c) x hx
    obtain ⟨e, he, hr, hd3⟩ := bulletStep_src chainOn acc c e2 he2
    exact ⟨e, he, hr2.trans hr, hd2.trans hd3⟩

theorem ballFold_src (chainOn : Bool) :
    ∀ (balls : List Ball) (acc : HitAcc Ball),
      ∀ x ∈ (balls.foldl (ballStep chainOn) acc).enemies,
        ∃ e ∈ acc.enemies, x.rect = e.rect ∧ x.bullet_damage = e.bullet_damage := by
  intro balls
  induction balls with
  | nil =>
    intro acc x hx
    exact ⟨x, hx, rfl, rfl⟩
  | cons c cs ih =>
    intro acc x hx
    obtain ⟨e2, he2, hr2, hd2⟩ := ih (ballStep chainOn acc c) x hx
    obtain ⟨e, he, hr, hd3⟩ := ballStep_src chainOn acc c e2 he2
    exact ⟨e, he, hr2.trans hr, hd2.trans hd3⟩

theorem waveClear_player (cfg : Config) (i : FrameIn) (s : GameState) :
    (waveClearPhase cfg i s).player = s.player := by
  unfold waveClearPhase
  split
  · split <;> rfl
  · rfl

theorem waveClear_ebullets (cfg : Config) (i : FrameIn) (s : GameState) :
    (waveClearPhase cfg i s).enemy_bullets = s.enemy_bullets := by
  unfold waveClearPhase
  split
  · split <;> rfl
  · rfl

theorem waveClear_skip (cfg : Config) (i : FrameIn) (s : GameState)
    (h : s.state ≠ .playing) : waveClearPhase cfg i s = s := by
  unfold waveClearPhase
  rw [if_neg]
  rintro ⟨_, h2⟩
  exact h h2

theorem applyPowerup_health (k : PowerupKind) (p : Player)
    (h1 : 0 ≤ p.health) (h2 : p.health ≤ p.max_health) :
    0 ≤ (applyPowerup k p).health ∧
      (applyPowerup k p).health ≤ (applyPowerup k p).max_health := by
  have hm : 0 ≤ p.max_health := le_trans h1 h2
  cases k
  case heal =>
    refine ⟨le_min hm ?_, min_le_left _ _⟩
    have h4 : 0 ≤ p.max_health * 0.4 := mul_nonneg hm (by norm_num)
    linarith
  all_goals exact ⟨h1, h2⟩

theorem inv_move (cfg : Config) (i : FrameIn) (s : GameState) :
    HealthInv s → HealthInv (movePhase cfg i s) := fun h => h

theorem inv_ensure (cfg : Config) (i : FrameIn) (s : GameState) :
    HealthInv s → HealthInv (ensurePhase cfg i s) := fun h => h

theorem inv_update (cfg : Config) (i : FrameIn) (s : GameState) :
    HealthInv s → HealthInv (updatePhase cfg i s) := by
  rintro ⟨h1, h2, h3, h4⟩
  refine ⟨h1, h2, ?_, ?_⟩
  · intro b hb
    simp only [updatePhase, List.mem_map] at hb
    obtain ⟨a, ha, rfl⟩ := hb
    exact h3 a ha
  · intro e he
    simp only [updatePhase, List.mem_map] at he
    obtain ⟨a, ha, rfl⟩ := he
    exact h4 a ha

theorem inv_cleanup (cfg : Config) (s : GameState) :
    HealthInv s → HealthInv (cleanupPhase cfg s) := by
  rintro ⟨h1, h2, h3, h4⟩
  refine ⟨h1, h2, ?_, h4⟩
  intro b hb
  simp only [cleanupPhase] at hb
  exact h3 b (List.mem_of_mem_filter hb)

theorem inv_fire (i : FrameIn) (s : GameState) :
    HealthInv s → HealthInv (firePhase i s) := by
  rintro ⟨h1, h2, h3, h4⟩
  refine ⟨h1, h2, ?_, ?_⟩
  · intro b hb
    simp only [firePhase] at hb
    rcases List.mem_append.mp hb with hold | hnew
    · exact h3 b hold
    · obtain ⟨r, hr, hr1⟩ := List.mem_filterMap.mp hnew
      obtain ⟨a, ha, rfl⟩ := List.mem_map.mp hr
      have hdam := (tryShoot_damage a i.now (i.fireGate a.id)).2 b hr1
      rw [hdam]
      exact h4 a ha
  · intro e he
    simp only [firePhase, List.map_map] at he
    obtain ⟨a, ha, rfl⟩ := List.mem_map.mp he
    have hpres := (tryShoot_damage a i.now (i.fireGate a.id)).1
    simp only [Function.comp]
    rw [hpres]
    exact h4 a ha

theorem inv_bulletPhase (s : GameState) :
    HealthInv s → HealthInv (playerBulletPhase s) := by
  rintro ⟨h1, h2, h3, h4⟩
  refine ⟨h1, h2, h3, ?_⟩
  intro e he
  obtain ⟨e0, he0, _, hd⟩ := bulletFold_src s.player.has_chain_lightning s.player_bullets
    { enemies := s.enemies, effects := s.effects, kept := [] } e he
  rw [hd]
  exact h4 e0 he0

theorem inv_ballPhase (s : GameState) :
    HealthInv s → HealthInv (ballPhase s) := by
  rintro ⟨h1, h2, h3, h4⟩
  refine ⟨h1, h2, h3, ?_⟩
  intro e he
  obtain ⟨e0, he0, _, hd⟩ := ballFold_src s.player.has_chain_lightning s.bouncy_balls
    { enemies := s.enemies, effects := s.effects, kept := [] } e he
  rw [hd]
  exact h4 e0 he0

theorem inv_ebp (s : GameState) :
    HealthInv s → HealthInv (enemyBulletPhase s) := by
  rintro ⟨h1, h2, h3, h4⟩
  obtain ⟨f1, _, f3, f4⟩ := ebFold_spec s.player.rect s.player.has_thorns s.player.max_health
    s.enemy_bullets
    { health := s.player.health, enemies := s.enemies, kept := [], state := s.state }
  obtain ⟨g1, g2⟩ := f1 h3 h1 h2
  refine ⟨g1, g2, ?_, ?_⟩
  · intro b hb
    rcases f3 b hb with hk | hm
    · simp at hk
    · exact h3 b hm
  · intro e he
    exact h4 e (f4 e he)

theorem inv_waveClear (cfg : Config) (i : FrameIn) (s : GameState)
    (hd : 0 ≤ cfg.enemy_bullet_damage) :
    HealthInv s → HealthInv (waveClearPhase cfg i s) := by
  rintro ⟨h1, h2, h3, h4⟩
  unfold waveClearPhase
  split
  · split
    · exact ⟨h1, h2, h3, h4⟩
    · refine ⟨h1, h2, h3, ?_⟩
      intro e he
      rw [create_wave_damage cfg (s.wave + 1) i.shapeFor s.nextId e he]
      exact hd
  · exact ⟨h1, h2, h3, h4⟩

theorem ebp_zero_gameOver (s : GameState)
    (h0 : 0 < s.player.health ∨ s.state = .gameOver) :
    0 < (enemyBulletPhase s).player.health ∨ (enemyBulletPhase s).state = .gameOver := by
  obtain ⟨_, f2, _, _⟩ := ebFold_spec s.player.rect s.player.has_thorns 0
    s.enemy_bullets
    { health := s.player.health, enemies := s.enemies, kept := [], state := s.state }
  exact f2 h0

/-- C5: with a sane configuration (nonnegative enemy bullet damage and
player max health), the health invariant 0 <= health <= max_health holds
initially and is preserved by every playing frame, by upgrade selection
(damage floors at 0, healing caps at max health), and by the shoot event;
moreover, whenever health reaches 0 during a playing frame, that same
frame ends in the gameOver state. -/
theorem c5_health_invariant (cfg : Config) (i : FrameIn) (s : GameState) (idx : ℕ)
    (hd : 0 ≤ cfg.enemy_bullet_damage) (hmh : 0 ≤ cfg.player_max_health) :
    HealthInv (reset_game cfg i.shapeFor) ∧
    (HealthInv s → HealthInv (playFrame cfg i s)) ∧
    (HealthInv s → HealthInv (applyChoice cfg i idx s)) ∧
    (HealthInv s → HealthInv (handleShoot i s)) ∧
    (s.state = .playing → 0 < s.player.health →
      (playFrame cfg i s).player.health = 0 → (playFrame cfg i s).state = .gameOver) := by
  refine ⟨?_, ?_, ?_, ?_, ?_⟩
  · refine ⟨hmh, le_refl _, ?_, ?_⟩
    · intro b hb
      simp [reset_game] at hb
    · intro e he
      simp only [reset_game] at he
      rw [create_wave_damage cfg 1 i.shapeFor 0 e he]
      exact hd
  · intro h
    by_cases hp : s.state = .playing
    · unfold playFrame
      rw [if_pos hp]
      exact inv_waveClear cfg i _ hd
        (inv_ebp _ (inv_ballPhase _ (inv_bulletPhase _ (inv_fire i _ (inv_cleanup cfg _
          (inv_update cfg i _ (inv_ensure cfg i _ (inv_move cfg i _ h))))))))
    · unfold playFrame
      rw [if_neg hp]
      exact h
  · intro h
    unfold applyChoice
    split
    · rcases hget : s.powerup_choices.get? idx with _ | k
      · exact h
      · dsimp only
        obtain ⟨hh1, hh2⟩ := applyPowerup_health k s.player h.1 h.2.1
        refine ⟨hh1, hh2, ?_, ?_⟩
        · intro b hb
          exact h.2.2.1 b hb
        · intro e he
          rw [create_wave_damage cfg _ i.shapeFor s.nextId e he]
          exact hd
    · exact h
  · intro h
    unfold handleShoot
    split
    · have hH : (playerShoot i.now s.player).2.health = s.player.health := by
        unfold playerShoot
        split <;> rfl
      have hM : (playerShoot i.now s.player).2.max_health = s.player.max_health := by
        unfold playerShoot
        split <;> rfl
      refine ⟨?_, ?_, h.2.2.1, h.2.2.2⟩
      · show 0 ≤ (playerShoot i.now s.player).2.health
        rw [hH]
        exact h.1
      · show (playerShoot i.now s.player).2.health ≤ (playerShoot i.now s.player).2.max_health
        rw [hH, hM]
        exact h.2.1
    · exact h
  · intro hp hpos hzero
    unfold playFrame at hzero ⊢
    rw [if_pos hp] at hzero ⊢
    have hY := ebp_zero_gameOver
      (ballPhase (playerBulletPhase (firePhase i (cleanupPhase cfg
        (updatePhase cfg i (ensurePhase cfg i (movePhase cfg i s))))))) (Or.inl hpos)
    rw [waveClear_player] at hzero
    rcases hY with hpos2 | hgo
    · exfalso
      rw [hzero] at hpos2
      exact lt_irrefl 0 hpos2
    · rw [waveClear_skip cfg i _ (by rw [hgo]; intro hfalse; exact SState.noConfusion hfalse)]
      exact hgo

/-- Witness for C5 at the default configuration on the concrete session. -/
theorem c5_health_invariant_witness :
    ((0 : ℚ) ≤ defaultConfig.enemy_bullet_damage ∧
      (0 : ℚ) ≤ defaultConfig.player_max_health ∧ HealthInv exState) ∧
      HealthInv (playFrame defaultConfig exIn exState) := by
  have hInv : HealthInv exState := by
    unfold HealthInv
    refine ⟨?_, ?_, ?_, ?_⟩ <;> decide
  exact ⟨⟨by norm_num [defaultConfig], by norm_num [defaultConfig], hInv⟩,
    (c5_health_invariant defaultConfig exIn exState 0 (by norm_num [defaultConfig])
      (by norm_num [defaultConfig])).2.1 hInv⟩

/-- C8: the bullet-count upgrade adds exactly 1 to bullet_count up to the
cap of 6; applying it twice from a base of 1 yields exactly 3; and for
every starting value, after any positive number of applications the value
never exceeds 6. -/
theorem c8_bullet_count_upgrade (p : Player) (n : ℕ) :
    (upgrade_bullet_count p 1 6).bullet_count = min 6 (p.bullet_count + 1) ∧
    (p.bullet_count = 1 →
      (upgrade_bullet_count (upgrade_bullet_count p 1 6) 1 6).bullet_count = 3) ∧
    ((applyPowerup .bulletCount)^[n + 1] p).bullet_count ≤ 6 := by
  refine ⟨rfl, ?_, ?_⟩
  · intro h
    simp [upgrade_bullet_count, h]
  · induction n with
    | zero =>
      simp [applyPowerup, upgrade_bullet_count]
    | succ m ih =>
      rw [Function.iterate_succ_apply']
      have : ∀ q : Player, (applyPowerup .bulletCount q).bullet_count = min 6 (q.bullet_count + 1) :=
        fun q => rfl
      rw [this]
      omega

/-- Witness for C8 at a concrete player (base bullet_count 1). -/
theorem c8_bullet_count_upgrade_witness :
    (mkPlayer defaultConfig).bullet_count = 1 ∧
      (upgrade_bullet_count (upgrade_bullet_count (mkPlayer defaultConfig) 1 6) 1 6).bullet_count
        = 3 :=
  ⟨rfl, (c8_bullet_count_upgrade (mkPlayer defaultConfig) 0).2.1 rfl⟩

/-- C10: a cooldown-eligible enemy whose Bernoulli gate fails produces no
bullet and is left completely unchanged (in particular last_shot_time is
unchanged, so the gate is retried on every later frame); whenever no
bullet is produced the enemy is unchanged; and last_shot_time is set to
the current time exactly when a bullet is produced. -/
theorem c10_try_shoot_gate (e : Enemy) (now : ℚ) (g : Bool) :
    (e.shoot_cooldown ≤ now - e.last_shot_time → g = false → tryShoot e now g = (none, e)) ∧
    ((tryShoot e now g).1 = none → (tryShoot e now g).2 = e) ∧
    (∀ b, (tryShoot e now g).1 = some b →
      (tryShoot e now g).2 = { e with last_shot_time := now }) := by
  refine ⟨?_, ?_, ?_⟩
  · intro hcd hg
    have : ¬ now - e.last_shot_time < e.shoot_cooldown := not_lt.mpr hcd
    simp [tryShoot, this, hg]
  · intro h
    by_cases h1 : now - e.last_shot_time < e.shoot_cooldown
    · simp [tryShoot, h1]
    · by_cases h2 : g = true
      · simp [tryShoot, h1, h2] at h
      · simp [tryShoot, h1, h2]
  · intro b h
    by_cases h1 : now - e.last_shot_time < e.shoot_cooldown
    · simp [tryShoot, h1] at h
    · by_cases h2 : g = true
      · simp [tryShoot, h1, h2]
      · simp [tryShoot, h1, h2] at h

/-- Witness for C10 at a concrete cooldown-eligible enemy with a failing
gate. -/
theorem c10_try_shoot_gate_witness :
    exEnemy.shoot_cooldown ≤ (5 : ℚ) - exEnemy.last_shot_time ∧
      tryShoot exEnemy 5 false = (none, exEnemy) :=
  ⟨by norm_num [exEnemy], (c10_try_shoot_gate exEnemy 5 false).1 (by norm_num [exEnemy]) rfl⟩

/-- C2 counterexample: with the default configuration at wave 2, the first
generated enemy has health 16/5 = 3.2, while the claim's formula
max(1, round_up(base_health * health_multiplier)) gives 4; the enemy
health is not even an integer. The code never rounds. -/
theorem c2_health_counterexample :
    ((create_wave defaultConfig 2 (fun _ => 0) 0).head?.map Enemy.health) = some (16 / 5) ∧
    ((16 : ℚ) / 5) ≠
      ((max 1 ⌈defaultConfig.base_health * (1 + ((2 : ℚ) - 1) * defaultConfig.health_scaling)⌉ : ℤ)
        : ℚ) ∧
    ¬ ∃ n : ℤ, ((16 : ℚ) / 5) = (n : ℚ) := by
  refine ⟨by decide, by decide, ?_⟩
  rintro ⟨n, hn⟩
  have : (5 : ℚ) ≠ 0 := by norm_num
  have h5 : (16 : ℚ) = (n : ℚ) * 5 := by
    field_simp at hn
    linarith
  have : (16 : ℤ) = n * 5 := by exact_mod_cast h5
  omega

/-- C2 amended: every enemy generated for wave w has health exactly
max(1, base_health * health_multiplier) with
health_multiplier = 1 + (w - 1) * health_scaling; the health is always at
least 1, but it is not rounded and need not be an integer. -/
theorem c2_health_amended (cfg : Config) (w : ℕ) (shapeFor : ℕ → ℕ) (sid : ℕ) :
    ∀ e ∈ create_wave cfg w shapeFor sid,
      e.health = max 1 (cfg.base_health * (1 + ((w : ℚ) - 1) * cfg.health_scaling)) ∧
      1 ≤ e.health := by
  intro e he
  simp only [create_wave, List.mem_map, List.mem_range] at he
  obtain ⟨idx, _, rfl⟩ := he
  exact ⟨rfl, le_max_left _ _⟩

/-- Witness for C2 amended: the first wave-2 enemy of the default
configuration. -/
theorem c2_health_amended_witness :
    (mkEnemy 0 60 90 defaultConfig 1.12 1.6 0) ∈ create_wave defaultConfig 2 (fun _ => 0) 0 ∧
      1 ≤ (mkEnemy 0 60 90 defaultConfig 1.12 1.6 0).health := by
  have hm : (mkEnemy 0 60 90 defaultConfig 1.12 1.6 0)
      ∈ create_wave defaultConfig 2 (fun _ => 0) 0 := by decide
  exact ⟨hm, (c2_health_amended defaultConfig 2 (fun _ => 0) 0 _ hm).2⟩

/-- C1: for every wave index w at least 1 (and a nonnegative count scaling
with the play area at least twice the padding, as in every sane
configuration), create_wave produces exactly
rows * cols + ceil(rows * cols * count_scaling * (w - 1)) enemies, and
every generated enemy's center x lies within
[padding, screen_width - padding]. -/
theorem c1_wave_count_and_bounds (cfg : Config) (w : ℕ) (shapeFor : ℕ → ℕ) (sid : ℕ)
    (hw : 1 ≤ w) (hcs : 0 ≤ cfg.count_scaling) (hpad : cfg.padding * 2 ≤ cfg.width) :
    (((create_wave cfg w shapeFor sid).length : ℤ) =
        (cfg.rows * cfg.cols : ℕ) +
          ⌈((cfg.rows * cfg.cols : ℕ) : ℚ) * cfg.count_scaling * ((w : ℚ) - 1)⌉) ∧
    ∀ e ∈ create_wave cfg w shapeFor sid,
      cfg.padding ≤ e.rect.centerx ∧ e.rect.centerx ≤ cfg.width - cfg.padding := by
  constructor
  · have hlen : (create_wave cfg w shapeFor sid).length = waveTotal cfg w := by
      simp [create_wave]
    rw [hlen]
    have hw1 : (1 : ℚ) ≤ (w : ℚ) := by exact_mod_cast hw
    have hadd : 0 ≤ waveAdditional cfg w := by
      apply Int.ceil_nonneg
      have h1 : (0 : ℚ) ≤ ((cfg.rows * cfg.cols : ℕ) : ℚ) := by positivity
      have h2 : (0 : ℚ) ≤ (w : ℚ) - 1 := by linarith
      exact mul_nonneg (mul_nonneg h1 hcs) h2
    have hbase : (0 : ℤ) ≤ ((cfg.rows * cfg.cols : ℕ) : ℤ) := Int.ofNat_nonneg _
    unfold waveTotal
    rw [Int.toNat_of_nonneg (add_nonneg hbase hadd)]
    rfl
  · intro e he
    simp only [create_wave, List.mem_map, List.mem_range] at he
    obtain ⟨idx, _, rfl⟩ := he
    have hcx : ∀ cx cy ww hh : ℚ, (Rect.mkCenter cx cy ww hh).centerx = cx := by
      intro cx cy ww hh
      simp [Rect.mkCenter, Rect.centerx]
    constructor
    · simp only [mkEnemy, hcx]
      exact le_min (le_trans (le_refl _) (le_max_left _ _)) (by linarith)
    · simp only [mkEnemy, hcx]
      exact min_le_right _ _

/-- C3 counterexample: a playing-state session holding one player bullet
that is already off-screen but overlapping an enemy. The source order
(cleanup before the collision passes) discards the bullet and leaves the
enemy at health 5; the order claimed by the spec (cleanup as phase five)
lets the bullet hit first, leaving health 4. The two resolver orders are
therefore observably different, so the claimed order is not the code's. -/
theorem c3_phase_order_counterexample :
    (playFrame defaultConfig exIn exState).enemies.map Enemy.health = [5] ∧
    (specOrderFrame defaultConfig exIn exState).enemies.map Enemy.health = [4] ∧
    playFrame defaultConfig exIn exState ≠ specOrderFrame defaultConfig exIn exState := by
  have h5 : (playFrame defaultConfig exIn exState).enemies.map Enemy.health = [5] := by decide
  have h4 : (specOrderFrame defaultConfig exIn exState).enemies.map Enemy.health = [4] := by
    decide
  refine ⟨h5, h4, fun h => ?_⟩
  rw [h] at h5
  have hbad : ([4] : List ℚ) = [5] := h4.symm.trans h5
  norm_num at hbad

/-- C3 amended: in every playing frame, after movement and the sprite
updates the resolver runs its six phases in the source order: (1)
off-screen bullet cleanup, (2) enemy fire attempts, (3) player bullets vs
enemies, (4) bouncy balls vs enemies, (5) enemy bullets vs player, (6)
wave-clear check. -/
theorem c3_phase_order_amended (cfg : Config) (i : FrameIn) (s : GameState)
    (hp : s.state = .playing) :
    playFrame cfg i s =
      waveClearPhase cfg i
        (enemyBulletPhase
          (ballPhase
            (playerBulletPhase
              (firePhase i
                (cleanupPhase cfg
                  (updatePhase cfg i
                    (ensurePhase cfg i
                      (movePhase cfg i s)))))))) := by
  simp [playFrame, hp]

/-- Witness for C3 amended at the concrete counterexample session. -/
theorem c3_phase_order_amended_witness :
    exState.state = SState.playing ∧
      playFrame defaultConfig exIn exState =
        waveClearPhase defaultConfig exIn
          (enemyBulletPhase
            (ballPhase
              (playerBulletPhase
                (firePhase exIn
                  (cleanupPhase defaultConfig
                    (updatePhase defaultConfig exIn
                      (ensurePhase defaultConfig exIn
                        (movePhase defaultConfig exIn exState)))))))) :=
  ⟨rfl, c3_phase_order_amended defaultConfig exIn exState rfl⟩

/-- C6: whenever the enemy collection is empty while the session is still
playing, the wave-clear check increments the wave by exactly one; when the
incremented wave w satisfies w > 1 and (w - 1) even, the session enters
the choosing state with exactly three distinct catalog powerups offered
and the incremented wave pending; otherwise the next wave is generated
immediately and the state remains playing. -/
theorem c6_wave_clear (cfg : Config) (i : FrameIn) (s : GameState)
    (he : s.enemies = []) (hp : s.state = .playing) :
    (waveClearPhase cfg i s).wave = s.wave + 1 ∧
    (s.wave + 1 > 1 ∧ (s.wave + 1 - 1) % 2 = 0 →
      (waveClearPhase cfg i s).state = .choosing ∧
      (waveClearPhase cfg i s).powerup_choices.length = 3 ∧
      (waveClearPhase cfg i s).powerup_choices.Nodup ∧
      (∀ c ∈ (waveClearPhase cfg i s).powerup_choices, c ∈ powerups) ∧
      (waveClearPhase cfg i s).pending_wave = some (s.wave + 1)) ∧
    (¬ (s.wave + 1 > 1 ∧ (s.wave + 1 - 1) % 2 = 0) →
      (waveClearPhase cfg i s).state = .playing ∧
      (waveClearPhase cfg i s).enemies = create_wave cfg (s.wave + 1) i.shapeFor s.nextId) := by
  have hcond : s.enemies = [] ∧ s.state = SState.playing := ⟨he, hp⟩
  refine ⟨?_, ?_, ?_⟩
  · unfold waveClearPhase
    rw [if_pos hcond]
    by_cases hb : s.wave + 1 > 1 ∧ (s.wave + 1 - 1) % 2 = 0
    · rw [if_pos hb]
    · rw [if_neg hb]
  · intro hb
    obtain ⟨h1, h2, h3⟩ := sample3_spec powerups (by decide) (by decide) i.r1 i.r2 i.r3
    unfold waveClearPhase
    rw [if_pos hcond, if_pos hb]
    exact ⟨rfl, h1, h2, h3, rfl⟩
  · intro hb
    unfold waveClearPhase
    rw [if_pos hcond, if_neg hb]
    exact ⟨hp, rfl⟩

/-- Witness for C6: a cleared playing session at wave 2, which enters the
choosing state at wave 3. -/
theorem c6_wave_clear_witness :
    (exStateCleared.enemies = [] ∧ exStateCleared.state = SState.playing) ∧
      (waveClearPhase defaultConfig exIn exStateCleared).wave = exStateCleared.wave + 1 :=
  ⟨⟨rfl, rfl⟩, (c6_wave_clear defaultConfig exIn exStateCleared rfl rfl).1⟩

/-- Witness for C1 at the default configuration, wave 2. -/
theorem c1_wave_count_and_bounds_witness :
    (1 ≤ 2 ∧ (0 : ℚ) ≤ defaultConfig.count_scaling ∧
      defaultConfig.padding * 2 ≤ defaultConfig.width) ∧
    ((create_wave defaultConfig 2 (fun _ => 0) 0).length : ℤ) =
      (defaultConfig.rows * defaultConfig.cols : ℕ) +
        ⌈((defaultConfig.rows * defaultConfig.cols : ℕ) : ℚ) * defaultConfig.count_scaling *
          ((2 : ℚ) - 1)⌉ := by
  refine ⟨⟨by norm_num, by norm_num [defaultConfig], by norm_num [defaultConfig]⟩, ?_⟩
  have h := c1_wave_count_and_bounds defaultConfig 2 (fun _ => 0) 0 (by norm_num)
    (by norm_num [defaultConfig]) (by norm_num [defaultConfig])
  have := h.1
  simpa using this

end ShootyUppy
